import Mathlib

/-! GeometriaComputacional: polygon predicates and the initial half-edge mesh.

A shallow embedding of `trabalho1/src/main.cpp`.

* `float` is read over exact arithmetic: coordinates are rationals. A second copy of the
  arithmetic-sensitive functions (suffix `F`) follows the machine, rounding every operation to
  binary32.
* `std::array<float,3>` is `Point`; its components `[0]`, `[1]`, `[2]` are `x`, `y`, `z`.
  The predicates only ever read `[0]` and `[1]`; `operator!=` compares all three.
* The globals `points`, `vertex`, `h`, `adj`, `unvisited_half_edge` are passed explicitly.
* A read outside a vector is a fault: functions that index return `Option`, `none` being the fault.
* `int` loop counters are natural numbers or integers; vectors are assumed shorter than `2^31`.
  The one unsigned wrap that matters, `points.size() - 1` on an empty vector, is modelled
  explicitly (`sizeMinusOne`).
-/

namespace GeometriaComputacional

/-- The type `std::array<float,3>`, components `[0]`, `[1]`, `[2]`. -/
structure Point where
  x : ℚ
  y : ℚ
  z : ℚ
deriving DecidableEq

/-- Modelled from the spec: `Vertex_t` is declared in `include/dcel.hpp`, which is not part of the
sources at hand. The fields are the ones `createInitialPolygon` initialises: coordinates, an RGB
colour and the integer key. -/
structure Vertex_t where
  x : ℚ
  y : ℚ
  r : ℚ
  g : ℚ
  b : ℚ
  key : Int
deriving DecidableEq

/-- Modelled from the spec: `polygonOrientation` passes `Vertex_t` values to `area2`; the
conversion (or overload) lives in `include/dcel.hpp`. `area2` reads only the two plane
coordinates, which are taken from the fields `x` and `y`. -/
def Vertex_t.toPoint (v : Vertex_t) : Point := ⟨v.x, v.y, 0⟩

/-- Source `area2`: twice the signed area of the triangle `v1 v2 v3`. -/
def area2 (v1 v2 v3 : Point) : ℚ :=
  v1.x * v2.y - v2.x * v1.y + v2.x * v3.y - v3.x * v2.y + v3.x * v1.y - v1.x * v3.y

/-- Source `left`. -/
def left (v1 v2 v3 : Point) : Bool := decide (area2 v1 v2 v3 > 0)

/-- Source `leftOn`. -/
def leftOn (v1 v2 v3 : Point) : Bool := decide (area2 v1 v2 v3 ≥ 0)

/-- Source `collinear`. -/
def collinear (v1 v2 v3 : Point) : Bool := decide (area2 v1 v2 v3 = 0)

/-- Source `Xor`: `!x ^ !y`. -/
def Xor (x y : Bool) : Bool := xor (!x) (!y)

/-- Source `intersectionProp`. -/
def intersectionProp (v1 v2 v3 v4 : Point) : Bool :=
  if collinear v1 v2 v3 || collinear v1 v2 v4 || collinear v3 v4 v1 || collinear v3 v4 v2 then
    false
  else
    Xor (left v1 v2 v3) (left v1 v2 v4) && Xor (left v3 v4 v1) (left v3 v4 v2)

/-- Source `between`. -/
def between (v1 v2 v3 : Point) : Bool :=
  if !collinear v1 v2 v3 then
    false
  else if v1.x ≠ v2.x then
    (decide (v1.x ≤ v3.x) && decide (v3.x ≤ v2.x)) || (decide (v1.x ≥ v3.x) && decide (v3.x ≥ v2.x))
  else
    (decide (v1.y ≤ v3.y) && decide (v3.y ≤ v2.y)) || (decide (v1.y ≥ v3.y) && decide (v3.y ≥ v2.y))

/-- Source `intersect`. -/
def intersect (v1 v2 v3 v4 : Point) : Bool :=
  if intersectionProp v1 v2 v3 v4 then
    true
  else if between v1 v2 v3 || between v1 v2 v4 || between v3 v4 v1 || between v3 v4 v2 then
    true
  else
    false

/-- The value of `size() - 1` for a vector of `n` elements: `size()` is an unsigned 64-bit
integer, so the difference wraps to `2^64 - 1` on an empty vector. -/
def sizeMinusOne (n : Nat) : Nat := if n = 0 then 2 ^ 64 - 1 else n - 1

/-- The loop of `diagonalie`, with `k` iterations left and the counter at `i`. Each iteration
reads `points[i]` and `points[i + 1]`. -/
def diagonalieLoop (points : List Point) (v1 v2 : Point) : Nat → Nat → Option Bool
  | 0, _ => some true
  | k + 1, i =>
    match points[i]?, points[i + 1]? with
    | some p, some q =>
      if (p ≠ v1 ∧ p ≠ v2) ∧ (q ≠ v1 ∧ q ≠ v2) ∧ intersect v1 v2 p q = true then
        some false
      else
        diagonalieLoop points v1 v2 k (i + 1)
    | _, _ => none

/-- Source `diagonalie`: `for (int i = 0; i < points.size() - 1; i++)`. -/
def diagonalie (points : List Point) (v1 v2 : Point) : Option Bool :=
  diagonalieLoop points v1 v2 (sizeMinusOne points.length) 0

/-- Source `inCone`. The parameters `b0` and `b1` are not read. -/
def inCone (v0 v v1 _b0 b _b1 : Point) : Bool :=
  if leftOn v v1 v0 then
    left v b v0 && left b v v1
  else
    !(leftOn v b v1 && leftOn b v v0)

/-- Source `diagonal`. The C++ `&&` short-circuits: `diagonalie` runs only when both cone tests
hold. -/
def diagonal (points : List Point) (v0 v v1 b0 b b1 : Point) : Option Bool :=
  if inCone v0 v v1 b0 b b1 && inCone b0 b b1 v0 v v1 then
    diagonalie points v b
  else
    some false

/-- The anchor of `polygonOrientation`, `{.x = 1.1f, .y = 1.1f}`. -/
def anchor : Point := ⟨11 / 10, 11 / 10, 0⟩

/-- The accumulation loop of `polygonOrientation`, with `k` iterations left, the counter at `i`
and the running total `tot`; the anchor is a parameter. -/
def orientationLoop (a : Point) (vertex : List Vertex_t) : Nat → Nat → ℚ → Option ℚ
  | 0, _, tot => some tot
  | k + 1, i, tot =>
    match vertex[i]?, vertex[i + 1]? with
    | some p, some q => orientationLoop a vertex k (i + 1) (tot + area2 a p.toPoint q.toPoint)
    | _, _ => none

/-- The total `tot_area` of `polygonOrientation` after the closing term
`area2(anchor, vertex[points.size() - 1], vertex[0])`, for an arbitrary anchor `a`.
The argument `pointsSize` is `points.size()`. -/
def fanArea (a : Point) (vertex : List Vertex_t) (pointsSize : Nat) : Option ℚ :=
  match orientationLoop a vertex (sizeMinusOne vertex.length) 0 0 with
  | none => none
  | some tot =>
    match vertex[sizeMinusOne pointsSize]?, vertex[0]? with
    | some p, some q => some (tot + area2 a p.toPoint q.toPoint)
    | _, _ => none

/-- Source `polygonOrientation`, reading the globals `vertex` and `points.size()`. -/
def polygonOrientation (vertex : List Vertex_t) (pointsSize : Nat) : Option Bool :=
  if vertex.length < 3 then
    some false
  else
    match fanArea anchor vertex pointsSize with
    | none => none
    | some tot_area => some (decide (tot_area > 0))

/-- Source `isConvex`. -/
def isConvex (v1 v2 v3 : Point) : Bool := decide (area2 v1 v2 v3 > 0)

/-- Source `ear`. -/
def ear (points : List Point) (v0 v v1 v00 v11 : Point) : Option Bool :=
  if !isConvex v0 v v1 then
    some false
  else
    diagonal points v00 v0 v v v1 v11

/-! ## The mesh state and `createInitialPolygon` -/

/-- A half-edge object: either the `k`-th object allocated with `new HalfEdge_t` (they are never
released), or the `i`-th element of the vector `h`, which holds copies. -/
inductive HalfEdgeRef where
  | heap (k : Nat)
  | slot (i : Nat)
deriving DecidableEq

/-- Modelled from the spec: `HalfEdge_t` is declared in `include/dcel.hpp`, which is not part of
the sources at hand. The two fields are the ones the program reads, `orig` and `twin`; `orig` is
the position in `vertex` of the vertex handed to `createEdge`. -/
structure HalfEdge_t where
  orig : Nat
  twin : HalfEdgeRef
deriving DecidableEq

/-- Modelled from the spec: `createEdge` is declared in `include/dcel.hpp` and defined outside the
sources at hand. By its contract the first half-edge originates at `origin`, the second at `dest`,
and each one's twin reference points to the other. The result is the contents written to `he` and
to `twin`. -/
def createEdge (origin dest : Nat) (he twin : HalfEdgeRef) : HalfEdge_t × HalfEdge_t :=
  (⟨origin, twin⟩, ⟨dest, he⟩)

/-- The map `std::map<int,std::vector<int>>`: `none` for an absent key. -/
abbrev AdjMap := Int → Option (List Int)

/-- The statement `adj[k].push_back(v)`; `operator[]` creates an absent key with an empty vector. -/
def adjPush (adj : AdjMap) (k v : Int) : AdjMap :=
  fun k' => if k' = k then some ((adj k').getD [] ++ [v]) else adj k'

/-- The globals written by `createInitialPolygon`, the objects allocated with `new` (`heap`), and
a count of the calls of `createEdge`. -/
structure Mesh where
  vertex : List Vertex_t
  h : List HalfEdge_t
  heap : List HalfEdge_t
  adj : AdjMap
  unvisited_half_edge : List Bool
  creating_initial_pol : Bool
  createEdgeCalls : Nat

/-- The state at program start: every container empty, `creating_initial_pol = true`. -/
def emptyMesh : Mesh := ⟨[], [], [], fun _ => none, [], true, 0⟩

/-- The position read by `vertex[i]` for an index given as an integer: a negative value stands for
the wrapped unsigned index and is outside every vector. -/
def vertexIndex (vertex : List Vertex_t) (i : Int) : Option Nat :=
  if 0 ≤ i ∧ i.toNat < vertex.length then some i.toNat else none

/-- One edge block of `createInitialPolygon`: two `new HalfEdge_t`, `adj[k1].push_back(k2)`,
`adj[k2].push_back(k1)`, `createEdge(vertex[o], vertex[d], *he, *twin)`, then copies of `*he` and
`*twin` are appended to `h` and two `false` flags to `unvisited_half_edge`. -/
def addEdge (st : Mesh) (k1 k2 o d : Int) : Option Mesh :=
  match vertexIndex st.vertex o, vertexIndex st.vertex d with
  | some vo, some vd =>
    let he := HalfEdgeRef.heap st.heap.length
    let twin := HalfEdgeRef.heap (st.heap.length + 1)
    let e := createEdge vo vd he twin
    some { st with
      heap := st.heap ++ [e.1, e.2]
      adj := adjPush (adjPush st.adj k1 k2) k2 k1
      h := st.h ++ [e.1, e.2]
      unvisited_half_edge := st.unvisited_half_edge ++ [false, false]
      createEdgeCalls := st.createEdgeCalls + 1 }
  | _, _ => none

/-- The first loop of `createInitialPolygon`: `vertex.push_back` for every point, the key counting
from `i`. -/
def pushVertices : Int → List Point → List Vertex_t → List Vertex_t
  | _, [], vertex => vertex
  | i, v :: rest, vertex => pushVertices (i + 1) rest (vertex ++ [⟨v.x, v.y, 1, 1, 1, i⟩])

/-- The counterclockwise loop `for (int j = 0; j < vertex.size() - 1; j++)`, with `k` iterations
left and the counter at `j`. -/
def forwardLoop : Nat → Int → Mesh → Option Mesh
  | 0, _, st => some st
  | k + 1, j, st =>
    match addEdge st j (j + 1) j (j + 1) with
    | none => none
    | some st' => forwardLoop k (j + 1) st'

/-- The clockwise loop `for (int j = vertex.size() - 1; j > 0; j--)`, the counter at `j`. -/
def backwardLoop : Nat → Mesh → Option Mesh
  | 0, st => some st
  | j + 1, st =>
    match addEdge st (j + 1 : Nat) (j : Nat) (j + 1 : Nat) (j : Nat) with
    | none => none
    | some st' => backwardLoop j st'

/-- The edge part of `createInitialPolygon` after the orientation is known; `last` is
`vertex.size() - 1` as an `int`. -/
def buildEdges (counterclockwise : Bool) (st : Mesh) : Option Mesh :=
  let last : Int := (st.vertex.length : Int) - 1
  if counterclockwise then
    match forwardLoop (sizeMinusOne st.vertex.length) 0 st with
    | none => none
    | some st' => addEdge st' last 0 last 0
  else
    match backwardLoop last.toNat st with
    | none => none
    | some st' => addEdge st' last 0 0 last

/-- Source `createInitialPolygon`, run on the state `st` with the global `points`. -/
def createInitialPolygon (st : Mesh) (points : List Point) : Option Mesh :=
  let st1 := { st with vertex := pushVertices 0 points st.vertex }
  match polygonOrientation st1.vertex points.length with
  | none => none
  | some counterclockwise =>
    match buildEdges counterclockwise st1 with
    | none => none
    | some st2 => some { st2 with creating_initial_pol := false }

/-- The half-edge object a reference designates. -/
def deref (st : Mesh) : HalfEdgeRef → Option HalfEdge_t
  | .heap k => st.heap[k]?
  | .slot i => st.h[i]?

/-- The reference `e->twin` of the half-edge object `e`. -/
def twinOf (st : Mesh) (e : HalfEdgeRef) : Option HalfEdgeRef :=
  (deref st e).map HalfEdge_t.twin

/-- The vertex position `e->orig` of the half-edge object `e`. -/
def origOf (st : Mesh) (e : HalfEdgeRef) : Option Nat :=
  (deref st e).map HalfEdge_t.orig

/-- The neighbours recorded for key `k`, empty for an absent key. -/
def neighbours (adj : AdjMap) (k : Int) : List Int := (adj k).getD []

/-- Sample points on the horizontal axis and above it. -/
def pt (x y : ℚ) : Point := ⟨x, y, 0⟩

/-- The square of the spec's scenarios, counterclockwise. -/
def square : List Point := [⟨-1, -1, 0⟩, ⟨1, -1, 0⟩, ⟨1, 1, 0⟩, ⟨-1, 1, 0⟩]

/-! ## The edge blocks as a list

Proof devices: the loops of `createInitialPolygon` are shown to run the edge block over an
explicit list of arguments, and the state after such a run is given field by field. -/

/-- The arguments of one edge block: `adj[k1].push_back(k2)`, `adj[k2].push_back(k1)`,
`createEdge(vertex[o], vertex[d], ...)`. -/
structure EdgeArgs where
  k1 : Int
  k2 : Int
  o : Int
  d : Int

/-- The vertex reads of a block are in bounds for a vector of length `n`. -/
def EdgeArgs.inBounds (n : Nat) (e : EdgeArgs) : Prop :=
  (0 ≤ e.o ∧ e.o.toNat < n) ∧ (0 ≤ e.d ∧ e.d.toNat < n)

/-- The pair of vertex positions a block hands to `createEdge`. -/
def EdgeArgs.od (e : EdgeArgs) : Nat × Nat := (e.o.toNat, e.d.toNat)

/-- The edge block run over a list of arguments, in order. -/
def addEdges : Mesh → List EdgeArgs → Option Mesh
  | st, [] => some st
  | st, e :: es =>
    match addEdge st e.k1 e.k2 e.o e.d with
    | none => none
    | some st' => addEdges st' es

/-- The state after one edge block whose two vertex reads are in bounds. -/
def addEdgeAt (st : Mesh) (e : EdgeArgs) : Mesh :=
  { st with
    heap := st.heap ++ [(createEdge e.o.toNat e.d.toNat (.heap st.heap.length)
      (.heap (st.heap.length + 1))).1, (createEdge e.o.toNat e.d.toNat (.heap st.heap.length)
      (.heap (st.heap.length + 1))).2]
    adj := adjPush (adjPush st.adj e.k1 e.k2) e.k2 e.k1
    h := st.h ++ [(createEdge e.o.toNat e.d.toNat (.heap st.heap.length)
      (.heap (st.heap.length + 1))).1, (createEdge e.o.toNat e.d.toNat (.heap st.heap.length)
      (.heap (st.heap.length + 1))).2]
    unvisited_half_edge := st.unvisited_half_edge ++ [false, false]
    createEdgeCalls := st.createEdgeCalls + 1 }

/-- The state after a list of edge blocks whose vertex reads are all in bounds. -/
def applyEdges (st : Mesh) (es : List EdgeArgs) : Mesh := es.foldl addEdgeAt st

/-- The arguments of the blocks run by `forwardLoop k j`. -/
def forwardArgs : Nat → Int → List EdgeArgs
  | 0, _ => []
  | k + 1, j => ⟨j, j + 1, j, j + 1⟩ :: forwardArgs k (j + 1)

/-- The arguments of the blocks run by `backwardLoop j`. -/
def backwardArgs : Nat → List EdgeArgs
  | 0 => []
  | j + 1 => ⟨(j + 1 : Nat), (j : Nat), (j + 1 : Nat), (j : Nat)⟩ :: backwardArgs j

/-- The arguments of all blocks run by `buildEdges` on a vertex vector of length `n`. -/
def edgeArgs (counterclockwise : Bool) (n : Nat) : List EdgeArgs :=
  if counterclockwise then
    forwardArgs (sizeMinusOne n) 0 ++ [⟨(n : Int) - 1, 0, (n : Int) - 1, 0⟩]
  else
    backwardArgs ((n : Int) - 1).toNat ++ [⟨(n : Int) - 1, 0, 0, (n : Int) - 1⟩]

/-- The vertex positions handed to the `k`-th `createEdge` call of a build over `n` vertices
(`edgeArgs_od`): the walk goes up on the counterclockwise branch and down on the clockwise one. -/
def edgeEnds (counterclockwise : Bool) (n k : Nat) : Nat × Nat :=
  if counterclockwise then (k, (k + 1) % n) else (n - 1 - k, (n - 1 - k + (n - 1)) % n)

/-- The half-edge pairs written by successive `createEdge` calls, the first of them on the heap
objects `base` and `base + 1`. -/
def pairList : Nat → List (Nat × Nat) → List HalfEdge_t
  | _, [] => []
  | base, (o, d) :: es =>
    (createEdge o d (.heap base) (.heap (base + 1))).1 ::
      (createEdge o d (.heap base) (.heap (base + 1))).2 :: pairList (base + 2) es

/-- The adjacency map after the two `push_back` of each block of a list. -/
def adjAfter (adj : AdjMap) (es : List EdgeArgs) : AdjMap :=
  es.foldl (fun a e => adjPush (adjPush a e.k1 e.k2) e.k2 e.k1) adj

/-- The values pushed onto `adj[k]` by the blocks of a list, in order. -/
def pushesFor (k : Int) : List EdgeArgs → List Int
  | [] => []
  | e :: es => (if k = e.k1 then [e.k2] else []) ++ (if k = e.k2 then [e.k1] else []) ++
      pushesFor k es

/-- The origins of the forward half-edges `h[0], h[2], ..., h[2(n-1)]`, in creation order. -/
def forwardOrigins (st : Mesh) (n : Nat) : List Nat :=
  (List.range n).filterMap (fun k => origOf st (.slot (2 * k)))

/-- The vertices at the origins of the forward half-edges, in creation order. -/
def walkVertices (st : Mesh) (n : Nat) : List Vertex_t :=
  (forwardOrigins st n).filterMap (fun o => st.vertex[o]?)

/-! ## Reference notions the claims are stated with -/

/-- The plane position of `vertex[i]`, the origin when `i` is outside the vector. -/
def vertexAt (vertex : List Vertex_t) (i : Nat) : Point :=
  match vertex[i]? with
  | some v => v.toPoint
  | none => ⟨0, 0, 0⟩

/-- The cross product `p.x * q.y - q.x * p.y` of two position vectors. -/
def cross (p q : Point) : ℚ := p.x * q.y - q.x * p.y

/-- The shoelace sum of a vertex list: the sum over `i = 0 .. n-1` of
`x_i * y_{i+1} - x_{i+1} * y_i`, indices taken modulo `n`. -/
def shoelace (vertex : List Vertex_t) : ℚ :=
  ∑ i ∈ Finset.range vertex.length,
    cross (vertexAt vertex i) (vertexAt vertex ((i + 1) % vertex.length))

/-- The plane point `(px, py)` lies on the closed segment from `a` to `b`: it is
`a + t (b - a)` for some `0 ≤ t ≤ 1`. -/
def OnSegment (a b : Point) (px py : ℚ) : Prop :=
  ∃ t : ℚ, 0 ≤ t ∧ t ≤ 1 ∧ px = a.x + t * (b.x - a.x) ∧ py = a.y + t * (b.y - a.y)

/-- The value `r` lies in the closed interval spanned by `p` and `q`, as `between` tests it. -/
def InRange (p q r : ℚ) : Prop := (p ≤ r ∧ r ≤ q) ∨ (p ≥ r ∧ r ≥ q)

/-- The edge `(points[j], points[j+1])` blocks the candidate diagonal `v1 v2` in the test of
`diagonalie`: neither endpoint equals `v1` or `v2`, and `intersect` holds. -/
def Blocks (points : List Point) (v1 v2 : Point) (j : Nat) : Prop :=
  ∃ p q, points[j]? = some p ∧ points[j + 1]? = some q ∧
    (p ≠ v1 ∧ p ≠ v2) ∧ (q ≠ v1 ∧ q ≠ v2) ∧ intersect v1 v2 p q = true

/-- The edge `(points[j], points[j+1])` is crossed properly by the candidate diagonal `v1 v2`:
neither endpoint equals `v1` or `v2`, and `intersectionProp` holds. -/
def BlocksProperly (points : List Point) (v1 v2 : Point) (j : Nat) : Prop :=
  ∃ p q, points[j]? = some p ∧ points[j + 1]? = some q ∧
    (p ≠ v1 ∧ p ≠ v2) ∧ (q ≠ v1 ∧ q ≠ v2) ∧ intersectionProp v1 v2 p q = true

/-- A simple hexagon whose vertex `(2, 0)` lies on the segment from `(0, 0)` to `(4, 0)`. -/
def notched : List Point := [pt 0 0, pt 2 (-2), pt 4 0, pt 3 1, pt 2 0, pt 1 1]

/-- The vertex vector `createInitialPolygon` builds from `points` when `vertex` starts empty. -/
def initialVertices (points : List Point) : List Vertex_t := pushVertices 0 points []

/-- The state `createInitialPolygon` reaches from the empty state on at least three points, in
closed form (`createInitialPolygon_eq`). -/
def builtMesh (points : List Point) : Mesh :=
  { applyEdges { emptyMesh with vertex := initialVertices points }
      (edgeArgs (decide (0 < shoelace (initialVertices points))) points.length) with
    creating_initial_pol := false }

/-! ## The ear diagnostic -/

/-- One call `ear(points[i0], points[i], points[i1], points[i00], points[i11])` of `earVerify`:
the five reads, then `ear`. -/
def earAt (points : List Point) (i0 i i1 i00 i11 : Nat) : Option Bool :=
  match points[i0]?, points[i]?, points[i1]?, points[i00]?, points[i11]? with
  | some v0, some v, some v1, some v00, some v11 => ear points v0 v v1 v00 v11
  | _, _, _, _, _ => none

/-- The loop `for (int i = 2; i < points.size() - 2; i++)` of `earVerify`, with `k` iterations
left and the counter at `i`; each iteration prints the label `i` and the classification. -/
def earVerifyLoop (points : List Point) : Nat → Nat → Option (List (Nat × Bool))
  | 0, _ => some []
  | k + 1, i =>
    match earAt points (i - 1) i (i + 1) (i - 2) (i + 2) with
    | none => none
    | some b =>
      match earVerifyLoop points k (i + 1) with
      | none => none
      | some l => some ((i, b) :: l)

/-- Source `earVerify`: the printed lines, each as the vertex label and whether it reads `ear`
(true) or `not ear` (false), in output order. -/
def earVerify (points : List Point) : Option (List (Nat × Bool)) :=
  if points.length < 4 then
    some []
  else
    match earAt points (points.length - 1) 0 1 (points.length - 2) 2,
      earAt points 0 1 2 (points.length - 1) 3,
      earVerifyLoop points (points.length - 2 - 2) 2,
      earAt points (points.length - 3) (points.length - 2) (points.length - 1)
        (points.length - 4) 0,
      earAt points (points.length - 2) (points.length - 1) 0 (points.length - 3) 1 with
    | some b0, some b1, some l, some b2, some b3 =>
      some ((0, b0) :: (1, b1) :: l ++ [(points.length - 2, b2), (points.length - 1, b3)])
    | _, _, _, _, _ => none

/-- The point `points[i]`, the origin when `i` is outside the vector. -/
def pointAt (points : List Point) (i : Nat) : Point := points.getD i ⟨0, 0, 0⟩

/-- The classification of vertex `i` as the claims word it: `ear` on the cyclic neighbours
`P[(i-1) mod n]`, `P[i]`, `P[(i+1) mod n]`, `P[(i-2) mod n]`, `P[(i+2) mod n]`. -/
def earOf (points : List Point) (i : Nat) : Option Bool :=
  ear points (pointAt points ((i + points.length - 1) % points.length)) (pointAt points i)
    (pointAt points ((i + 1) % points.length))
    (pointAt points ((i + points.length - 2) % points.length))
    (pointAt points ((i + 2) % points.length))

/-- The counterclockwise axis-aligned rectangle with corners `(x0, y0)` and `(x1, y1)`. -/
def rectangle (x0 x1 y0 y1 : ℚ) : List Point := [pt x0 y0, pt x1 y0, pt x1 y1, pt x0 y1]

/-- The square with corners `(0, 0)` and `(2, 2)`, counterclockwise. -/
def square02 : List Point := [pt 0 0, pt 2 0, pt 2 2, pt 0 2]

/-- The element `h[i]` is a copy of the `i`-th object allocated with `new`: twin of twin of
`h[i]` is that object, which holds the same origin and twin reference as `h[i]`, and on the
object itself twin of twin is the identity. -/
def TwinOfCopy (st : Mesh) (i : Nat) : Prop :=
  (twinOf st (.slot i)).bind (twinOf st) = some (.heap i) ∧
  deref st (.heap i) = deref st (.slot i) ∧
  (deref st (.slot i)).isSome = true ∧
  (twinOf st (.heap i)).bind (twinOf st) = some (.heap i)

/-- Every element of `h` is a copy of the allocated object of the same rank. -/
def TwinInv (st : Mesh) : Prop :=
  st.heap.length = st.h.length ∧ ∀ i, i < st.h.length → TwinOfCopy st i

/-! ## Binary32 arithmetic

The program computes in `float`. The definitions above read it over exact arithmetic; the ones
below follow the machine: a `float` value is the rational it denotes, and every operation rounds
its exact result to the nearest binary32 number, ties to even (no fused multiply-add, no extended
precision). Overflow to infinity is not modelled; every value used stays far below `2^128`. -/

/-- The spacing of binary32 numbers around `a > 0`: `2^(e-23)` with `2^e ≤ a < 2^(e+1)`, the
exponent `e` clamped to `-126` (subnormal range). The search runs down from `p = 2^127`, with `k`
steps left. -/
def ulpFrom : Nat → ℚ → ℚ → ℚ
  | 0, p, _ => p / 8388608
  | k + 1, p, a => if p ≤ a then p / 8388608 else ulpFrom k (p / 2) a

/-- The spacing of binary32 numbers around `a > 0`. -/
def ulp32 (a : ℚ) : ℚ := ulpFrom 253 (2 ^ 127) a

/-- The nearest integer, ties to even. -/
def roundEven (m : ℚ) : Int :=
  if m - ⌊m⌋ < 1 / 2 then ⌊m⌋
  else if 1 / 2 < m - ⌊m⌋ then ⌊m⌋ + 1
  else if ⌊m⌋ % 2 = 0 then ⌊m⌋ else ⌊m⌋ + 1

/-- The binary32 number nearest to `a > 0`, ties to even. -/
def roundAbs (a : ℚ) : ℚ := (roundEven (a / ulp32 a) : ℚ) * ulp32 a

/-- The binary32 number nearest to `q`, ties to even. -/
def round32 (q : ℚ) : ℚ :=
  if q = 0 then 0 else if q < 0 then -roundAbs (-q) else roundAbs q

/-- The `float` sum. -/
def fadd (a b : ℚ) : ℚ := round32 (a + b)

/-- The `float` difference. -/
def fsub (a b : ℚ) : ℚ := round32 (a - b)

/-- The `float` product. -/
def fmul (a b : ℚ) : ℚ := round32 (a * b)

/-- The `float` quotient. -/
def fdiv (a b : ℚ) : ℚ := round32 (a / b)

/-- Source `createPoint` for a click at pixel `(x, y)`, in `float`:
`(float)(x - win_width/2)/(win_width/2)` and `-(float)(y - win_height/2)/(win_height/2)`, the
halves being integer divisions. -/
def createPoint (win_width win_height : Int) (x y : Nat) : Point :=
  ⟨fdiv (round32 (((x : Int) - win_width / 2 : Int) : ℚ)) (round32 ((win_width / 2 : Int) : ℚ)),
    fdiv (-round32 (((y : Int) - win_height / 2 : Int) : ℚ))
      (round32 ((win_height / 2 : Int) : ℚ)), 0⟩

/-- Source `area2` in `float`: the six products and five additions, left to right, each
rounded. -/
def area2F (v1 v2 v3 : Point) : ℚ :=
  fsub (fadd (fsub (fadd (fsub (fmul v1.x v2.y) (fmul v2.x v1.y)) (fmul v2.x v3.y))
    (fmul v3.x v2.y)) (fmul v3.x v1.y)) (fmul v1.x v3.y)

/-- Source `collinear` in `float`. -/
def collinearF (v1 v2 v3 : Point) : Bool := decide (area2F v1 v2 v3 = 0)

/-- Source `between` in `float`; the comparisons are exact. -/
def betweenF (v1 v2 v3 : Point) : Bool :=
  if !collinearF v1 v2 v3 then
    false
  else if v1.x ≠ v2.x then
    (decide (v1.x ≤ v3.x) && decide (v3.x ≤ v2.x)) || (decide (v1.x ≥ v3.x) && decide (v3.x ≥ v2.x))
  else
    (decide (v1.y ≤ v3.y) && decide (v3.y ≤ v2.y)) || (decide (v1.y ≥ v3.y) && decide (v3.y ≥ v2.y))

/-- Source `isConvex` in `float`. -/
def isConvexF (v1 v2 v3 : Point) : Bool := decide (area2F v1 v2 v3 > 0)

/-- The anchor of `polygonOrientation` in `float`: `1.1f` is the binary32 number nearest to
`11/10`. -/
def anchorF : Point := ⟨round32 (11 / 10), round32 (11 / 10), 0⟩

/-- The accumulation loop of `polygonOrientation` in `float`: `tot_area += area2(...)`. -/
def orientationLoopF (vertex : List Vertex_t) : Nat → Nat → ℚ → Option ℚ
  | 0, _, tot => some tot
  | k + 1, i, tot =>
    match vertex[i]?, vertex[i + 1]? with
    | some p, some q =>
      orientationLoopF vertex k (i + 1) (fadd tot (area2F anchorF p.toPoint q.toPoint))
    | _, _ => none

/-- The total `tot_area` of `polygonOrientation` in `float`, closing term included. -/
def fanAreaF (vertex : List Vertex_t) (pointsSize : Nat) : Option ℚ :=
  match orientationLoopF vertex (sizeMinusOne vertex.length) 0 0 with
  | none => none
  | some tot =>
    match vertex[sizeMinusOne pointsSize]?, vertex[0]? with
    | some p, some q => some (fadd tot (area2F anchorF p.toPoint q.toPoint))
    | _, _ => none

/-- Source `polygonOrientation` in `float`. -/
def polygonOrientationF (vertex : List Vertex_t) (pointsSize : Nat) : Option Bool :=
  if vertex.length < 3 then
    some false
  else
    match fanAreaF vertex pointsSize with
    | none => none
    | some tot_area => some (decide (tot_area > 0))

/-- Source `createInitialPolygon` with the orientation computed in `float`. -/
def createInitialPolygonF (st : Mesh) (points : List Point) : Option Mesh :=
  let st1 := { st with vertex := pushVertices 0 points st.vertex }
  match polygonOrientationF st1.vertex points.length with
  | none => none
  | some counterclockwise =>
    match buildEdges counterclockwise st1 with
    | none => none
    | some st2 => some { st2 with creating_initial_pol := false }

/-- Source `left` in `float`. -/
def leftF (v1 v2 v3 : Point) : Bool := decide (area2F v1 v2 v3 > 0)

/-- Source `leftOn` in `float`. -/
def leftOnF (v1 v2 v3 : Point) : Bool := decide (area2F v1 v2 v3 ≥ 0)

/-- Source `intersectionProp` in `float`. -/
def intersectionPropF (v1 v2 v3 v4 : Point) : Bool :=
  if collinearF v1 v2 v3 || collinearF v1 v2 v4 || collinearF v3 v4 v1 || collinearF v3 v4 v2 then
    false
  else
    Xor (leftF v1 v2 v3) (leftF v1 v2 v4) && Xor (leftF v3 v4 v1) (leftF v3 v4 v2)

/-- Source `intersect` in `float`. -/
def intersectF (v1 v2 v3 v4 : Point) : Bool :=
  if intersectionPropF v1 v2 v3 v4 then
    true
  else if betweenF v1 v2 v3 || betweenF v1 v2 v4 || betweenF v3 v4 v1 || betweenF v3 v4 v2 then
    true
  else
    false

/-- The loop of `diagonalie` in `float`. -/
def diagonalieLoopF (points : List Point) (v1 v2 : Point) : Nat → Nat → Option Bool
  | 0, _ => some true
  | k + 1, i =>
    match points[i]?, points[i + 1]? with
    | some p, some q =>
      if (p ≠ v1 ∧ p ≠ v2) ∧ (q ≠ v1 ∧ q ≠ v2) ∧ intersectF v1 v2 p q = true then
        some false
      else
        diagonalieLoopF points v1 v2 k (i + 1)
    | _, _ => none

/-- Source `diagonalie` in `float`. -/
def diagonalieF (points : List Point) (v1 v2 : Point) : Option Bool :=
  diagonalieLoopF points v1 v2 (sizeMinusOne points.length) 0

/-- Source `inCone` in `float`. -/
def inConeF (v0 v v1 _b0 b _b1 : Point) : Bool :=
  if leftOnF v v1 v0 then
    leftF v b v0 && leftF b v v1
  else
    !(leftOnF v b v1 && leftOnF b v v0)

/-- Source `diagonal` in `float`. -/
def diagonalF (points : List Point) (v0 v v1 b0 b b1 : Point) : Option Bool :=
  if inConeF v0 v v1 b0 b b1 && inConeF b0 b b1 v0 v v1 then
    diagonalieF points v b
  else
    some false

/-- Source `ear` in `float`. -/
def earF (points : List Point) (v0 v v1 v00 v11 : Point) : Option Bool :=
  if !isConvexF v0 v v1 then
    some false
  else
    diagonalF points v00 v0 v v v1 v11

/-- The classification of vertex `i` in `float`, on its cyclic neighbours as in `earOf`. -/
def earOfF (points : List Point) (i : Nat) : Option Bool :=
  earF points (pointAt points ((i + points.length - 1) % points.length)) (pointAt points i)
    (pointAt points ((i + 1) % points.length))
    (pointAt points ((i + points.length - 2) % points.length))
    (pointAt points ((i + 2) % points.length))

/-- Three clicks in the initial 800 x 600 window, at pixels `(776, 43)`, `(754, 82)`,
`(644, 277)`. -/
def clicksA : List Point :=
  [createPoint 800 600 776 43, createPoint 800 600 754 82, createPoint 800 600 644 277]

/-- Three clicks in the initial 800 x 600 window, at pixels `(647, 136)`, `(488, 199)`,
`(64, 367)`. -/
def clicksB : List Point :=
  [createPoint 800 600 647 136, createPoint 800 600 488 199, createPoint 800 600 64 367]

/-- The binary32 number next above `1/2`. -/
def halfUp : ℚ := 8388609 / 16777216

/-! ## Orientation -/

theorem sizeMinusOne_of_pos {n : Nat} (h : 0 < n) : sizeMinusOne n = n - 1 := by
  unfold sizeMinusOne
  rw [if_neg (by omega)]

theorem vertexAt_of_getElem? {vertex : List Vertex_t} {i : Nat} {v : Vertex_t}
    (h : vertex[i]? = some v) : vertexAt vertex i = v.toPoint := by
  simp [vertexAt, h]

theorem area2_eq_cross (a p q : Point) :
    area2 a p q = cross p q + a.x * (p.y - q.y) + a.y * (q.x - p.x) := by
  simp only [area2, cross]; ring

theorem orientationLoop_eq (a : Point) (vertex : List Vertex_t) :
    ∀ (k i : Nat) (tot : ℚ), i + k < vertex.length →
      orientationLoop a vertex k i tot =
        some (tot + ∑ j ∈ Finset.range k,
          area2 a (vertexAt vertex (i + j)) (vertexAt vertex (i + j + 1))) := by
  intro k
  induction k with
  | zero => intro i tot _; simp [orientationLoop]
  | succ k ih =>
    intro i tot hlt
    have h1 : i < vertex.length := by omega
    have h2 : i + 1 < vertex.length := by omega
    obtain ⟨p, e1⟩ : ∃ p, vertex[i]? = some p := ⟨_, List.getElem?_eq_getElem h1⟩
    obtain ⟨q, e2⟩ : ∃ q, vertex[i + 1]? = some q := ⟨_, List.getElem?_eq_getElem h2⟩
    rw [orientationLoop, e1, e2]
    simp only []
    rw [ih (i + 1) _ (by omega), Finset.sum_range_succ']
    simp only [Nat.add_zero, vertexAt_of_getElem? e1, vertexAt_of_getElem? e2]
    congr 1
    have : ∀ j, i + 1 + j = i + (j + 1) := fun j => by omega
    simp only [this]
    ring

/-- Sum of the anchor fan over the open chain plus the closing triangle, in closed form. -/
theorem fan_sum_eq_shoelace (a : Point) (f : Nat → Point) (m : Nat) :
    (∑ j ∈ Finset.range m, area2 a (f j) (f (j + 1))) + area2 a (f m) (f 0) =
      (∑ j ∈ Finset.range m, cross (f j) (f (j + 1))) + cross (f m) (f 0) := by
  have hy : ∑ j ∈ Finset.range m, ((f j).y - (f (j + 1)).y) = (f 0).y - (f m).y :=
    Finset.sum_range_sub' (fun j => (f j).y) m
  have hx : ∑ j ∈ Finset.range m, ((f (j + 1)).x - (f j).x) = (f m).x - (f 0).x :=
    Finset.sum_range_sub (fun j => (f j).x) m
  simp only [area2_eq_cross, Finset.sum_add_distrib, ← Finset.mul_sum, hx, hy]
  ring

theorem shoelace_eq_chain (vertex : List Vertex_t) (m : Nat) (hm : vertex.length = m + 1) :
    shoelace vertex =
      (∑ j ∈ Finset.range m, cross (vertexAt vertex j) (vertexAt vertex (j + 1))) +
        cross (vertexAt vertex m) (vertexAt vertex 0) := by
  unfold shoelace
  rw [hm, Finset.sum_range_succ, Nat.mod_self]
  congr 1
  apply Finset.sum_congr rfl
  intro j hj
  rw [Nat.mod_eq_of_lt (by simpa using hj)]

theorem fanArea_eq_shoelace (a : Point) (vertex : List Vertex_t) (hn : 1 ≤ vertex.length) :
    fanArea a vertex vertex.length = some (shoelace vertex) := by
  obtain ⟨m, hm⟩ : ∃ m, vertex.length = m + 1 := ⟨vertex.length - 1, by omega⟩
  obtain ⟨p, e1⟩ : ∃ p, vertex[m]? = some p := ⟨_, List.getElem?_eq_getElem (by omega)⟩
  obtain ⟨q, e0⟩ : ∃ q, vertex[0]? = some q := ⟨_, List.getElem?_eq_getElem (by omega)⟩
  unfold fanArea
  rw [sizeMinusOne_of_pos (by omega), orientationLoop_eq a vertex _ 0 0 (by omega)]
  simp only [hm, Nat.add_sub_cancel, e1, e0, zero_add]
  rw [← vertexAt_of_getElem? e1, ← vertexAt_of_getElem? e0,
    fan_sum_eq_shoelace a (vertexAt vertex) m, shoelace_eq_chain vertex m hm]

theorem polygonOrientation_eq (vertex : List Vertex_t) (hn : 3 ≤ vertex.length) :
    polygonOrientation vertex vertex.length = some (decide (0 < shoelace vertex)) := by
  unfold polygonOrientation
  rw [if_neg (by omega), fanArea_eq_shoelace anchor vertex (by omega)]

/-- Claim C1. For a vertex list of length at least 3 (with `points.size()` equal to its length),
`polygonOrientation` returns, and it returns true exactly when the shoelace sum over consecutive
vertices (indices modulo `n`) is strictly positive; the anchor-fan total of the code equals the
shoelace sum for every anchor point, not only `(1.1, 1.1)`. -/
theorem polygonOrientation_iff_shoelace (vertex : List Vertex_t) (hn : 3 ≤ vertex.length) :
    (polygonOrientation vertex vertex.length = some true ↔ 0 < shoelace vertex) ∧
    (polygonOrientation vertex vertex.length = some false ↔ ¬ 0 < shoelace vertex) ∧
    ∀ a : Point, fanArea a vertex vertex.length = some (shoelace vertex) := by
  rw [polygonOrientation_eq vertex hn]
  refine ⟨by simp, by simp, fun a => fanArea_eq_shoelace a vertex (by omega)⟩

theorem polygonOrientation_iff_shoelace_witness :
    3 ≤ (pushVertices 0 square []).length ∧
    ((polygonOrientation (pushVertices 0 square []) (pushVertices 0 square []).length = some true ↔
        0 < shoelace (pushVertices 0 square [])) ∧
      (polygonOrientation (pushVertices 0 square []) (pushVertices 0 square []).length = some false ↔
        ¬ 0 < shoelace (pushVertices 0 square [])) ∧
      ∀ a : Point, fanArea a (pushVertices 0 square []) (pushVertices 0 square []).length =
        some (shoelace (pushVertices 0 square []))) :=
  ⟨by decide, polygonOrientation_iff_shoelace (pushVertices 0 square []) (by decide)⟩

theorem cross_swap (p q : Point) : cross p q = -cross q p := by
  simp only [cross]; ring

theorem vertexAt_reverse (vertex : List Vertex_t) (m i : Nat) (hm : vertex.length = m + 1)
    (hi : i ≤ m) : vertexAt vertex.reverse i = vertexAt vertex (m - i) := by
  unfold vertexAt
  rw [List.getElem?_reverse (by omega), hm]
  simp

theorem shoelace_reverse (vertex : List Vertex_t) : shoelace vertex.reverse = -shoelace vertex := by
  rcases Nat.eq_zero_or_pos vertex.length with h0 | hpos
  · have : vertex = [] := List.length_eq_zero.mp h0
    subst this
    simp [shoelace]
  · obtain ⟨m, hm⟩ : ∃ m, vertex.length = m + 1 := ⟨vertex.length - 1, by omega⟩
    rw [shoelace_eq_chain vertex m hm,
      shoelace_eq_chain vertex.reverse m (by simpa using hm),
      vertexAt_reverse vertex m m hm le_rfl, vertexAt_reverse vertex m 0 hm (Nat.zero_le m),
      Nat.sub_self, Nat.sub_zero, cross_swap (vertexAt vertex 0), neg_add,
      ← Finset.sum_range_reflect (fun j => cross (vertexAt vertex j) (vertexAt vertex (j + 1))) m,
      ← Finset.sum_neg_distrib]
    congr 1
    apply Finset.sum_congr rfl
    intro j hj
    have hj' : j < m := by simpa using hj
    rw [vertexAt_reverse vertex m j hm (by omega),
      vertexAt_reverse vertex m (j + 1) hm (by omega), cross_swap]
    have e : m - 1 - j + 1 = m - j := by omega
    have e' : m - (j + 1) = m - 1 - j := by omega
    rw [e, e']

/-- Over exact arithmetic reversing the list flips a counterclockwise classification. -/
theorem polygonOrientation_reverse_exact (vertex : List Vertex_t) (hn : 3 ≤ vertex.length) :
    (polygonOrientation vertex vertex.length = some true →
      polygonOrientation vertex.reverse vertex.reverse.length = some false) ∧
    (shoelace vertex ≠ 0 →
      (polygonOrientation vertex vertex.length = some true ∧
          polygonOrientation vertex.reverse vertex.reverse.length = some false) ∨
        (polygonOrientation vertex vertex.length = some false ∧
          polygonOrientation vertex.reverse vertex.reverse.length = some true)) := by
  rw [polygonOrientation_eq vertex hn,
    polygonOrientation_eq vertex.reverse (by simpa using hn), shoelace_reverse]
  constructor
  · intro h
    have : 0 < shoelace vertex := by simpa using h
    simp only [Option.some.injEq, decide_eq_false_iff_not, not_lt]
    linarith
  · intro hne
    rcases lt_or_gt_of_ne hne with h | h
    · right
      have h1 : ¬ 0 < shoelace vertex := by linarith
      have h2 : 0 < -shoelace vertex := by linarith
      simp [h1, h2]
    · left
      have h1 : 0 < shoelace vertex := h
      have h2 : ¬ 0 < -shoelace vertex := by linarith
      simp [h1, h2]

theorem shoelace_square : shoelace (pushVertices 0 square []) = 8 := by
  simp [shoelace, pushVertices, square, Finset.sum_range_succ, vertexAt, cross, Vertex_t.toPoint]
  norm_num

/-! ## The mesh builder -/

theorem pushVertices_length (points : List Point) :
    ∀ (i : Int) (vertex : List Vertex_t),
      (pushVertices i points vertex).length = vertex.length + points.length := by
  induction points with
  | nil => intro i vertex; simp [pushVertices]
  | cons v rest ih =>
    intro i vertex
    rw [pushVertices, ih]
    simp only [List.length_append, List.length_cons, List.length_nil]
    omega

theorem vertexIndex_eq {vertex : List Vertex_t} {i : Int} (h0 : 0 ≤ i)
    (h1 : i.toNat < vertex.length) : vertexIndex vertex i = some i.toNat := by
  unfold vertexIndex
  rw [if_pos ⟨h0, h1⟩]

theorem addEdge_eq (st : Mesh) (e : EdgeArgs) (hb : e.inBounds st.vertex.length) :
    addEdge st e.k1 e.k2 e.o e.d = some (addEdgeAt st e) := by
  unfold addEdge
  rw [vertexIndex_eq hb.1.1 hb.1.2, vertexIndex_eq hb.2.1 hb.2.2]
  rfl

theorem addEdges_eq (es : List EdgeArgs) :
    ∀ st : Mesh, (∀ e ∈ es, e.inBounds st.vertex.length) →
      addEdges st es = some (applyEdges st es) := by
  induction es with
  | nil => intro st _; rfl
  | cons e es ih =>
    intro st hb
    rw [addEdges, addEdge_eq st e (hb e (List.mem_cons_self _ _))]
    simp only []
    rw [ih (addEdgeAt st e) (fun e' he' => hb e' (List.mem_cons_of_mem _ he'))]
    rfl

theorem addEdges_append (es1 es2 : List EdgeArgs) :
    ∀ st : Mesh, addEdges st (es1 ++ es2) =
      match addEdges st es1 with
      | none => none
      | some st' => addEdges st' es2 := by
  induction es1 with
  | nil => intro st; rfl
  | cons e es ih =>
    intro st
    rw [List.cons_append, addEdges, addEdges]
    cases addEdge st e.k1 e.k2 e.o e.d with
    | none => rfl
    | some st' => exact ih st'

theorem forwardLoop_eq : ∀ (k : Nat) (j : Int) (st : Mesh),
    forwardLoop k j st = addEdges st (forwardArgs k j) := by
  intro k
  induction k with
  | zero => intro j st; rfl
  | succ k ih =>
    intro j st
    rw [forwardLoop, forwardArgs, addEdges]
    cases addEdge st j (j + 1) j (j + 1) with
    | none => rfl
    | some st' => exact ih (j + 1) st'

theorem backwardLoop_eq : ∀ (j : Nat) (st : Mesh),
    backwardLoop j st = addEdges st (backwardArgs j) := by
  intro j
  induction j with
  | zero => intro st; rfl
  | succ j ih =>
    intro st
    rw [backwardLoop, backwardArgs, addEdges]
    cases addEdge st (j + 1 : Nat) (j : Nat) (j + 1 : Nat) (j : Nat) with
    | none => rfl
    | some st' => exact ih st'

theorem buildEdges_eq (counterclockwise : Bool) (st : Mesh) :
    buildEdges counterclockwise st = addEdges st (edgeArgs counterclockwise st.vertex.length) := by
  cases counterclockwise with
  | true =>
    simp only [buildEdges, edgeArgs, if_true, forwardLoop_eq, addEdges_append]
    cases addEdges st (forwardArgs (sizeMinusOne st.vertex.length) 0) with
    | none => rfl
    | some st' =>
      simp only [addEdges]
      cases addEdge st' ((st.vertex.length : Int) - 1) 0 ((st.vertex.length : Int) - 1) 0 <;> rfl
  | false =>
    simp only [buildEdges, edgeArgs, Bool.false_eq_true, if_false, backwardLoop_eq,
      addEdges_append]
    cases addEdges st (backwardArgs ((st.vertex.length : Int) - 1).toNat) with
    | none => rfl
    | some st' =>
      simp only [addEdges]
      cases addEdge st' ((st.vertex.length : Int) - 1) 0 0 ((st.vertex.length : Int) - 1) <;> rfl

theorem applyEdges_cons (st : Mesh) (e : EdgeArgs) (es : List EdgeArgs) :
    applyEdges st (e :: es) = applyEdges (addEdgeAt st e) es := rfl

theorem applyEdges_vertex (es : List EdgeArgs) :
    ∀ st : Mesh, (applyEdges st es).vertex = st.vertex := by
  induction es with
  | nil => intro st; rfl
  | cons e es ih => intro st; rw [applyEdges_cons, ih]; rfl

theorem applyEdges_calls (es : List EdgeArgs) :
    ∀ st : Mesh, (applyEdges st es).createEdgeCalls = st.createEdgeCalls + es.length := by
  induction es with
  | nil => intro st; rfl
  | cons e es ih =>
    intro st
    rw [applyEdges_cons, ih]
    simp only [addEdgeAt, List.length_cons]
    omega

theorem applyEdges_unvisited (es : List EdgeArgs) :
    ∀ st : Mesh, (applyEdges st es).unvisited_half_edge =
      st.unvisited_half_edge ++ List.replicate (2 * es.length) false := by
  induction es with
  | nil => intro st; simp [applyEdges]
  | cons e es ih =>
    intro st
    rw [applyEdges_cons, ih]
    have : 2 * (e :: es).length = 2 * es.length + 1 + 1 := by simp only [List.length_cons]; omega
    rw [this]
    simp [addEdgeAt, List.replicate_succ]

theorem applyEdges_heap (es : List EdgeArgs) :
    ∀ st : Mesh, (applyEdges st es).heap =
      st.heap ++ pairList st.heap.length (es.map EdgeArgs.od) := by
  induction es with
  | nil => intro st; simp [applyEdges, pairList]
  | cons e es ih =>
    intro st
    rw [applyEdges_cons, ih]
    simp [addEdgeAt, pairList, EdgeArgs.od]

theorem applyEdges_h (es : List EdgeArgs) :
    ∀ st : Mesh, (applyEdges st es).h =
      st.h ++ pairList st.heap.length (es.map EdgeArgs.od) := by
  induction es with
  | nil => intro st; simp [applyEdges, pairList]
  | cons e es ih =>
    intro st
    rw [applyEdges_cons, ih]
    simp [addEdgeAt, pairList, EdgeArgs.od]

theorem applyEdges_adj (es : List EdgeArgs) :
    ∀ st : Mesh, (applyEdges st es).adj = adjAfter st.adj es := by
  induction es with
  | nil => intro st; rfl
  | cons e es ih => intro st; rw [applyEdges_cons, ih]; rfl

theorem forwardArgs_length : ∀ (k : Nat) (j : Int), (forwardArgs k j).length = k := by
  intro k
  induction k with
  | zero => intro j; rfl
  | succ k ih => intro j; simp [forwardArgs, ih]

theorem backwardArgs_length : ∀ m : Nat, (backwardArgs m).length = m := by
  intro m
  induction m with
  | zero => rfl
  | succ m ih => simp [backwardArgs, ih]

theorem edgeArgs_length (counterclockwise : Bool) (n : Nat) (hn : 1 ≤ n) :
    (edgeArgs counterclockwise n).length = n := by
  cases counterclockwise with
  | true =>
    simp only [edgeArgs, if_true, List.length_append, forwardArgs_length,
      sizeMinusOne_of_pos hn, List.length_cons, List.length_nil]
    omega
  | false =>
    simp only [edgeArgs, Bool.false_eq_true, if_false, List.length_append, backwardArgs_length,
      List.length_cons, List.length_nil]
    omega

theorem forwardArgs_getElem? : ∀ (k : Nat) (j : Int) (i : Nat), i < k →
    (forwardArgs k j)[i]? = some ⟨j + i, j + i + 1, j + i, j + i + 1⟩ := by
  intro k
  induction k with
  | zero => intro j i hi; omega
  | succ k ih =>
    intro j i hi
    cases i with
    | zero => simp [forwardArgs]
    | succ i =>
      rw [forwardArgs, List.getElem?_cons_succ, ih (j + 1) i (by omega)]
      have e : j + 1 + (i : Int) = j + ((i + 1 : Nat) : Int) := by push_cast; ring
      rw [e]

theorem backwardArgs_getElem? : ∀ (m i : Nat), i < m →
    (backwardArgs m)[i]? =
      some ⟨((m - i : Nat) : Int), ((m - i - 1 : Nat) : Int), ((m - i : Nat) : Int),
        ((m - i - 1 : Nat) : Int)⟩ := by
  intro m
  induction m with
  | zero => intro i hi; omega
  | succ m ih =>
    intro i hi
    cases i with
    | zero => simp [backwardArgs]
    | succ i =>
      rw [backwardArgs, List.getElem?_cons_succ, ih i (by omega)]
      have e : m + 1 - (i + 1) = m - i := by omega
      rw [e]

theorem edgeArgs_od (counterclockwise : Bool) (n i : Nat) (hi : i < n) :
    ((edgeArgs counterclockwise n).map EdgeArgs.od)[i]? = some (edgeEnds counterclockwise n i) := by
  have hn : 1 ≤ n := by omega
  unfold edgeEnds
  rw [List.getElem?_map]
  rcases Nat.lt_or_ge i (n - 1) with hlt | hge
  · cases counterclockwise with
    | true =>
      simp only [edgeArgs, if_true, sizeMinusOne_of_pos hn]
      rw [List.getElem?_append_left (by rw [forwardArgs_length]; exact hlt),
        forwardArgs_getElem? _ _ _ hlt]
      simp only [Option.map_some', EdgeArgs.od, zero_add]
      rw [Nat.mod_eq_of_lt (by omega)]
      congr 2
    | false =>
      have e : ((n : Int) - 1).toNat = n - 1 := by omega
      simp only [edgeArgs, Bool.false_eq_true, if_false, e]
      rw [List.getElem?_append_left (by rw [backwardArgs_length]; exact hlt),
        backwardArgs_getElem? _ _ hlt]
      simp only [Option.map_some', EdgeArgs.od, Int.toNat_ofNat]
      have e2 : (n - 1 - i + (n - 1)) % n = n - 1 - i - 1 := by
        have : n - 1 - i + (n - 1) = (n - 1 - i - 1) + n := by omega
        rw [this, Nat.add_mod_right, Nat.mod_eq_of_lt (by omega)]
      rw [e2]
  · have hi' : i = n - 1 := by omega
    cases counterclockwise with
    | true =>
      simp only [edgeArgs, if_true, sizeMinusOne_of_pos hn]
      rw [List.getElem?_append_right (by rw [forwardArgs_length]; omega), forwardArgs_length]
      have : i - (n - 1) = 0 := by omega
      have e3 : (i + 1) % n = 0 := by
        have : i + 1 = n := by omega
        rw [this, Nat.mod_self]
      have e4 : ((n : Int) - 1).toNat = i := by omega
      simp [this, EdgeArgs.od, e3, e4]
    | false =>
      have e : ((n : Int) - 1).toNat = n - 1 := by omega
      simp only [edgeArgs, Bool.false_eq_true, if_false, e]
      rw [List.getElem?_append_right (by rw [backwardArgs_length]; omega), backwardArgs_length]
      have : i - (n - 1) = 0 := by omega
      have e3 : n - 1 - i = 0 := by omega
      have e4 : (0 + (n - 1)) % n = n - 1 := by
        rw [Nat.zero_add, Nat.mod_eq_of_lt (by omega)]
      simp [this, EdgeArgs.od, e3, e4, e]

theorem edgeArgs_inBounds (counterclockwise : Bool) (n : Nat) (hn : 1 ≤ n) :
    ∀ e ∈ edgeArgs counterclockwise n, e.inBounds n := by
  intro e he
  cases counterclockwise with
  | true =>
    simp only [edgeArgs, if_true, sizeMinusOne_of_pos hn, List.mem_append,
      List.mem_singleton] at he
    rcases he with he | he
    · obtain ⟨i, hi, hget⟩ := List.getElem_of_mem he
      rw [forwardArgs_length] at hi
      have h1 : (forwardArgs (n - 1) 0)[i]? = some e := by
        rw [List.getElem?_eq_getElem (by rw [forwardArgs_length]; exact hi), hget]
      rw [forwardArgs_getElem? _ _ _ hi] at h1
      cases h1
      simp only [EdgeArgs.inBounds]
      omega
    · subst he
      simp only [EdgeArgs.inBounds]
      omega
  | false =>
    have e1 : ((n : Int) - 1).toNat = n - 1 := by omega
    simp only [edgeArgs, Bool.false_eq_true, if_false, e1, List.mem_append,
      List.mem_singleton] at he
    rcases he with he | he
    · obtain ⟨i, hi, hget⟩ := List.getElem_of_mem he
      rw [backwardArgs_length] at hi
      have h1 : (backwardArgs (n - 1))[i]? = some e := by
        rw [List.getElem?_eq_getElem (by rw [backwardArgs_length]; exact hi), hget]
      rw [backwardArgs_getElem? _ _ hi] at h1
      cases h1
      simp only [EdgeArgs.inBounds]
      omega
    · subst he
      simp only [EdgeArgs.inBounds]
      omega

theorem initialVertices_length (points : List Point) :
    (initialVertices points).length = points.length := by
  simp [initialVertices, pushVertices_length]

/-- From the empty state and at least three points `createInitialPolygon` runs to completion and
reaches `builtMesh points`. -/
theorem createInitialPolygon_eq (points : List Point) (hn : 3 ≤ points.length) :
    createInitialPolygon emptyMesh points = some (builtMesh points) := by
  have hlen := initialVertices_length points
  unfold createInitialPolygon
  simp only []
  change (match polygonOrientation (initialVertices points) points.length with
    | none => none
    | some counterclockwise =>
      match buildEdges counterclockwise { emptyMesh with vertex := initialVertices points } with
      | none => none
      | some st2 => some { st2 with creating_initial_pol := false }) = _
  have ho := polygonOrientation_eq (initialVertices points) (by omega)
  rw [hlen] at ho
  rw [ho]
  simp only []
  rw [buildEdges_eq, addEdges_eq]
  · simp only [hlen]
    rfl
  · simp only [hlen]
    exact edgeArgs_inBounds _ _ (by omega)

theorem builtMesh_vertex (points : List Point) :
    (builtMesh points).vertex = initialVertices points := by
  simp [builtMesh, applyEdges_vertex]

theorem builtMesh_h (points : List Point) :
    (builtMesh points).h = pairList 0 ((edgeArgs (decide (0 < shoelace (initialVertices points)))
      points.length).map EdgeArgs.od) := by
  simp [builtMesh, applyEdges_h, emptyMesh]

theorem builtMesh_heap (points : List Point) :
    (builtMesh points).heap = pairList 0 ((edgeArgs
      (decide (0 < shoelace (initialVertices points))) points.length).map EdgeArgs.od) := by
  simp [builtMesh, applyEdges_heap, emptyMesh]

theorem builtMesh_unvisited (points : List Point) (hn : 1 ≤ points.length) :
    (builtMesh points).unvisited_half_edge = List.replicate (2 * points.length) false := by
  simp [builtMesh, applyEdges_unvisited, emptyMesh, edgeArgs_length _ _ hn]

theorem builtMesh_calls (points : List Point) (hn : 1 ≤ points.length) :
    (builtMesh points).createEdgeCalls = points.length := by
  simp [builtMesh, applyEdges_calls, emptyMesh, edgeArgs_length _ _ hn]

theorem builtMesh_adj (points : List Point) :
    (builtMesh points).adj = adjAfter (fun _ => none)
      (edgeArgs (decide (0 < shoelace (initialVertices points))) points.length) := by
  simp [builtMesh, applyEdges_adj, emptyMesh]

theorem pairList_length : ∀ (es : List (Nat × Nat)) (base : Nat),
    (pairList base es).length = 2 * es.length := by
  intro es
  induction es with
  | nil => intro base; rfl
  | cons e es ih =>
    intro base
    obtain ⟨o, d⟩ := e
    simp only [pairList, List.length_cons, ih]
    omega

theorem pairList_getElem? : ∀ (es : List (Nat × Nat)) (base i : Nat) (o d : Nat),
    es[i]? = some (o, d) →
      (pairList base es)[2 * i]? = some ⟨o, .heap (base + 2 * i + 1)⟩ ∧
      (pairList base es)[2 * i + 1]? = some ⟨d, .heap (base + 2 * i)⟩ := by
  intro es
  induction es with
  | nil => intro base i o d h; simp at h
  | cons e es ih =>
    intro base i o d h
    obtain ⟨o', d'⟩ := e
    cases i with
    | zero =>
      simp only [List.getElem?_cons_zero, Option.some.injEq, Prod.mk.injEq] at h
      obtain ⟨rfl, rfl⟩ := h
      simp [pairList, createEdge]
    | succ i =>
      rw [List.getElem?_cons_succ] at h
      obtain ⟨h1, h2⟩ := ih (base + 2) i o d h
      have e1 : 2 * (i + 1) = 2 * i + 1 + 1 := by omega
      have e2 : base + (2 * i + 1 + 1) + 1 = base + 2 + 2 * i + 1 := by omega
      have e3 : base + (2 * i + 1 + 1) = base + 2 + 2 * i := by omega
      rw [e1, pairList, List.getElem?_cons_succ, List.getElem?_cons_succ,
        List.getElem?_cons_succ, List.getElem?_cons_succ, e2, e3]
      exact ⟨h1, h2⟩

/-- Claim C3. From the empty mesh state and a point list of length `n ≥ 3` (of either
orientation), `createInitialPolygon` runs to completion, calls `createEdge` exactly `n` times and
leaves exactly `n` vertices, `2n` half-edges in `h` and `2n` flags in `unvisited_half_edge`, all
of them false. -/
theorem createInitialPolygon_counts (points : List Point) (hn : 3 ≤ points.length) :
    ∃ st, createInitialPolygon emptyMesh points = some st ∧
      st.createEdgeCalls = points.length ∧
      st.vertex.length = points.length ∧
      st.h.length = 2 * points.length ∧
      st.unvisited_half_edge.length = 2 * points.length ∧
      ∀ b ∈ st.unvisited_half_edge, b = false := by
  have h1 : 1 ≤ points.length := by omega
  refine ⟨builtMesh points, createInitialPolygon_eq points hn, builtMesh_calls points h1, ?_, ?_,
    ?_, ?_⟩
  · rw [builtMesh_vertex, initialVertices_length]
  · rw [builtMesh_h, pairList_length, List.length_map, edgeArgs_length _ _ h1]
  · rw [builtMesh_unvisited points h1, List.length_replicate]
  · rw [builtMesh_unvisited points h1]
    intro b hb
    exact List.eq_of_mem_replicate hb

theorem createInitialPolygon_counts_witness :
    3 ≤ square.length ∧
    ∃ st, createInitialPolygon emptyMesh square = some st ∧
      st.createEdgeCalls = square.length ∧
      st.vertex.length = square.length ∧
      st.h.length = 2 * square.length ∧
      st.unvisited_half_edge.length = 2 * square.length ∧
      ∀ b ∈ st.unvisited_half_edge, b = false :=
  ⟨by decide, createInitialPolygon_counts square (by decide)⟩

/-! ### The adjacency map -/

theorem adjAfter_cons (adj : AdjMap) (e : EdgeArgs) (es : List EdgeArgs) :
    adjAfter adj (e :: es) = adjAfter (adjPush (adjPush adj e.k1 e.k2) e.k2 e.k1) es := rfl

theorem adjAfter_eq (es : List EdgeArgs) : ∀ (adj : AdjMap) (k : Int),
    adjAfter adj es k =
      if pushesFor k es = [] then adj k else some ((adj k).getD [] ++ pushesFor k es) := by
  induction es with
  | nil => intro adj k; simp [adjAfter, pushesFor]
  | cons e es ih =>
    intro adj k
    rw [adjAfter_cons, ih, pushesFor]
    simp only [adjPush]
    split_ifs <;> simp_all

theorem pushesFor_append (k : Int) (es1 es2 : List EdgeArgs) :
    pushesFor k (es1 ++ es2) = pushesFor k es1 ++ pushesFor k es2 := by
  induction es1 with
  | nil => rfl
  | cons e es ih => simp [pushesFor, ih]

theorem mem_pushesFor (x y : Int) (es : List EdgeArgs) :
    y ∈ pushesFor x es ↔ ∃ e ∈ es, (x = e.k1 ∧ y = e.k2) ∨ (x = e.k2 ∧ y = e.k1) := by
  induction es with
  | nil => simp [pushesFor]
  | cons e es ih =>
    simp only [pushesFor, List.mem_append, ih, List.mem_cons, exists_eq_or_imp]
    constructor
    · rintro ((h | h) | h)
      · split_ifs at h with h1
        · left; left; exact ⟨h1, by simpa using h⟩
        · simp at h
      · split_ifs at h with h1
        · left; right; exact ⟨h1, by simpa using h⟩
        · simp at h
      · right; exact h
    · rintro ((⟨h1, h2⟩ | ⟨h1, h2⟩) | h)
      · left; left; rw [if_pos h1]; simp [h2]
      · left; right; rw [if_pos h1]; simp [h2]
      · right; exact h

theorem pushesFor_forwardArgs : ∀ (k : Nat) (j x : Int),
    pushesFor x (forwardArgs k j) =
      (if j + 1 ≤ x ∧ x ≤ j + k then [x - 1] else []) ++
        (if j ≤ x ∧ x < j + k then [x + 1] else []) := by
  intro k
  induction k with
  | zero =>
    intro j x
    rw [if_neg (by omega), if_neg (by omega)]
    rfl
  | succ k ih =>
    intro j x
    rw [forwardArgs, pushesFor, ih]
    simp only []
    split_ifs <;> first | (exfalso; omega) | (simp; try omega)

theorem pushesFor_backwardArgs : ∀ (m : Nat) (x : Int),
    pushesFor x (backwardArgs m) =
      (if 0 ≤ x ∧ x < m then [x + 1] else []) ++ (if 1 ≤ x ∧ x ≤ m then [x - 1] else []) := by
  intro m
  induction m with
  | zero =>
    intro x
    rw [if_neg (by omega), if_neg (by omega)]
    rfl
  | succ m ih =>
    intro x
    rw [backwardArgs, pushesFor, ih]
    simp only []
    split_ifs <;> first | (exfalso; omega) | (simp; try omega)

/-- The values pushed onto `adj[x]` by a whole build over `n ≥ 3` vertices. -/
theorem pushesFor_edgeArgs (counterclockwise : Bool) (n : Nat) (hn : 3 ≤ n) (x : Int) :
    pushesFor x (edgeArgs counterclockwise n) =
      if x = 0 then [1, (n : Int) - 1]
      else if x = (n : Int) - 1 then [(n : Int) - 2, 0]
      else if 0 < x ∧ x < (n : Int) - 1 then
        (if counterclockwise then [x - 1, x + 1] else [x + 1, x - 1])
      else [] := by
  cases counterclockwise with
  | true =>
    simp only [edgeArgs, if_true, pushesFor_append, pushesFor_forwardArgs, pushesFor,
      sizeMinusOne_of_pos (show 0 < n by omega)]
    split_ifs <;> first | (exfalso; omega) | (simp; try omega)
  | false =>
    have e : ((n : Int) - 1).toNat = n - 1 := by omega
    simp only [edgeArgs, Bool.false_eq_true, if_false, pushesFor_append, pushesFor_backwardArgs,
      pushesFor, e]
    split_ifs <;> first | (exfalso; omega) | (simp; try omega)

theorem emod_pred_of_pos {n x : Int} (h0 : 0 < x) (h1 : x < n) : (x - 1) % n = x - 1 :=
  Int.emod_eq_of_lt (by omega) (by omega)

theorem emod_succ_of_lt {n x : Int} (h0 : 0 ≤ x) (h1 : x + 1 < n) : (x + 1) % n = x + 1 :=
  Int.emod_eq_of_lt (by omega) (by omega)

theorem emod_neg_one {n : Int} (hn : 0 < n) : (0 - 1) % n = n - 1 := by
  have e : (0 - 1 : Int) = (n - 1) + (-1) * n := by ring
  rw [e, Int.add_mul_emod_self, Int.emod_eq_of_lt (by omega) (by omega)]

theorem emod_wrap (n : Int) : (n - 1 + 1) % n = 0 := by
  rw [Int.sub_add_cancel, Int.emod_self]

/-- The neighbours recorded for an in-range key after a build: two distinct values, the cyclic
predecessor and successor. -/
theorem pushesFor_edgeArgs_neighbours (counterclockwise : Bool) (n : Nat) (hn : 3 ≤ n) (x : Int)
    (h0 : 0 ≤ x) (h1 : x < n) :
    (pushesFor x (edgeArgs counterclockwise n)).length = 2 ∧
    (pushesFor x (edgeArgs counterclockwise n)).Nodup ∧
    ∀ y, y ∈ pushesFor x (edgeArgs counterclockwise n) ↔
      y = (x - 1) % (n : Int) ∨ y = (x + 1) % (n : Int) := by
  have hn' : (0 : Int) < n := by omega
  rw [pushesFor_edgeArgs counterclockwise n hn x]
  by_cases hx0 : x = 0
  · subst hx0
    rw [if_pos rfl, emod_neg_one hn', emod_succ_of_lt (le_refl 0) (by omega)]
    refine ⟨rfl, ?_, ?_⟩
    · simp only [List.nodup_cons, List.mem_singleton, List.not_mem_nil, not_false_eq_true,
        List.nodup_nil, and_true]
      omega
    · intro y
      simp only [List.mem_cons, List.mem_singleton, List.not_mem_nil, or_false, zero_add]
      tauto
  · rw [if_neg hx0]
    by_cases hx1 : x = (n : Int) - 1
    · subst hx1
      rw [if_pos rfl, emod_wrap (n : Int), emod_pred_of_pos (by omega) (by omega)]
      refine ⟨rfl, ?_, ?_⟩
      · simp only [List.nodup_cons, List.mem_singleton, List.not_mem_nil, not_false_eq_true,
          List.nodup_nil, and_true]
        omega
      · intro y
        simp only [List.mem_cons, List.mem_singleton, List.not_mem_nil, or_false]
        have : (n : Int) - 1 - 1 = n - 2 := by ring
        rw [this]
    · rw [if_neg hx1, if_pos (by omega), emod_pred_of_pos (by omega) h1,
        emod_succ_of_lt h0 (by omega)]
      cases counterclockwise with
      | true =>
        refine ⟨rfl, ?_, ?_⟩
        · simp only [if_true, List.nodup_cons, List.mem_singleton, List.not_mem_nil,
            not_false_eq_true, List.nodup_nil, and_true]
          omega
        · intro y
          simp only [if_true, List.mem_cons, List.mem_singleton, List.not_mem_nil, or_false]
      | false =>
        refine ⟨rfl, ?_, ?_⟩
        · simp only [Bool.false_eq_true, if_false, List.nodup_cons, List.mem_singleton,
            List.not_mem_nil, not_false_eq_true, List.nodup_nil, and_true]
          omega
        · intro y
          simp only [Bool.false_eq_true, if_false, List.mem_cons, List.mem_singleton,
            List.not_mem_nil, or_false]
          tauto

theorem pushesFor_edgeArgs_eq_nil (counterclockwise : Bool) (n : Nat) (hn : 3 ≤ n) (x : Int) :
    pushesFor x (edgeArgs counterclockwise n) = [] ↔ ¬ (0 ≤ x ∧ x < n) := by
  constructor
  · rintro h ⟨h0, h1⟩
    have := (pushesFor_edgeArgs_neighbours counterclockwise n hn x h0 h1).1
    rw [h] at this
    simp at this
  · intro h
    rw [pushesFor_edgeArgs counterclockwise n hn x, if_neg (by omega), if_neg (by omega),
      if_neg (by omega)]

theorem neighbours_adjAfter (es : List EdgeArgs) (x : Int) :
    neighbours (adjAfter (fun _ => none) es) x = pushesFor x es := by
  unfold neighbours
  rw [adjAfter_eq]
  split_ifs with h
  · simp [h]
  · simp

theorem isSome_adjAfter (es : List EdgeArgs) (x : Int) :
    (adjAfter (fun _ => none) es x).isSome ↔ pushesFor x es ≠ [] := by
  rw [adjAfter_eq]
  split_ifs with h
  · simp [h]
  · simp [h]

theorem buildEdges_initial (counterclockwise : Bool) (points : List Point)
    (hn : 1 ≤ points.length) :
    buildEdges counterclockwise { emptyMesh with vertex := initialVertices points } =
      some (applyEdges { emptyMesh with vertex := initialVertices points }
        (edgeArgs counterclockwise points.length)) := by
  rw [buildEdges_eq, addEdges_eq]
  · simp only [initialVertices_length]
  · simp only [initialVertices_length]
    exact edgeArgs_inBounds _ _ hn

/-- Claim C4. From the empty mesh state and a point list of length `n ≥ 3`, after
`createInitialPolygon` the map `adj` has exactly the keys `0 .. n-1`; each key `i` maps to exactly
two distinct neighbours, which as a set are `(i-1) mod n` and `(i+1) mod n`; the map is symmetric;
and both branches of the builder (counterclockwise and clockwise) yield these same neighbour
sets. -/
theorem createInitialPolygon_adjacency (points : List Point) (hn : 3 ≤ points.length) :
    ∃ st, createInitialPolygon emptyMesh points = some st ∧
      (∀ k : Int, (st.adj k).isSome ↔ 0 ≤ k ∧ k < points.length) ∧
      (∀ i : Int, 0 ≤ i → i < points.length →
        (neighbours st.adj i).length = 2 ∧ (neighbours st.adj i).Nodup ∧
        ∀ j, j ∈ neighbours st.adj i ↔
          j = (i - 1) % (points.length : Int) ∨ j = (i + 1) % (points.length : Int)) ∧
      (∀ i j : Int, j ∈ neighbours st.adj i ↔ i ∈ neighbours st.adj j) ∧
      (∀ counterclockwise : Bool, ∃ st',
        buildEdges counterclockwise { emptyMesh with vertex := initialVertices points } =
          some st' ∧
        ∀ i j : Int, j ∈ neighbours st'.adj i ↔ j ∈ neighbours st.adj i) := by
  refine ⟨builtMesh points, createInitialPolygon_eq points hn, ?_, ?_, ?_, ?_⟩
  · intro k
    rw [builtMesh_adj, isSome_adjAfter, Ne, pushesFor_edgeArgs_eq_nil _ _ hn, not_not]
  · intro i h0 h1
    rw [builtMesh_adj, neighbours_adjAfter]
    exact pushesFor_edgeArgs_neighbours _ _ hn i h0 h1
  · intro i j
    rw [builtMesh_adj, neighbours_adjAfter, neighbours_adjAfter, mem_pushesFor, mem_pushesFor]
    constructor <;>
    · rintro ⟨e, he, h⟩
      exact ⟨e, he, by tauto⟩
  · intro counterclockwise
    refine ⟨_, buildEdges_initial counterclockwise points (by omega), ?_⟩
    intro i j
    rw [builtMesh_adj, applyEdges_adj, neighbours_adjAfter]
    show j ∈ neighbours (adjAfter (fun _ => none) _) i ↔ j ∈ pushesFor i _
    rw [neighbours_adjAfter]
    by_cases hi : 0 ≤ i ∧ i < points.length
    · rw [(pushesFor_edgeArgs_neighbours counterclockwise _ hn i hi.1 hi.2).2.2,
        (pushesFor_edgeArgs_neighbours _ _ hn i hi.1 hi.2).2.2]
    · rw [(pushesFor_edgeArgs_eq_nil counterclockwise _ hn i).2 hi,
        (pushesFor_edgeArgs_eq_nil _ _ hn i).2 hi]

theorem createInitialPolygon_adjacency_witness :
    3 ≤ square.length ∧
    ∃ st, createInitialPolygon emptyMesh square = some st ∧
      (∀ k : Int, (st.adj k).isSome ↔ 0 ≤ k ∧ k < square.length) ∧
      (∀ i : Int, 0 ≤ i → i < square.length →
        (neighbours st.adj i).length = 2 ∧ (neighbours st.adj i).Nodup ∧
        ∀ j, j ∈ neighbours st.adj i ↔
          j = (i - 1) % (square.length : Int) ∨ j = (i + 1) % (square.length : Int)) ∧
      (∀ i j : Int, j ∈ neighbours st.adj i ↔ i ∈ neighbours st.adj j) ∧
      (∀ counterclockwise : Bool, ∃ st',
        buildEdges counterclockwise { emptyMesh with vertex := initialVertices square } =
          some st' ∧
        ∀ i j : Int, j ∈ neighbours st'.adj i ↔ j ∈ neighbours st.adj i) :=
  ⟨by decide, createInitialPolygon_adjacency square (by decide)⟩

/-! ### The half-edge walk -/

theorem builtMesh_h_getElem? (points : List Point) (k : Nat) (hk : k < points.length) :
    (builtMesh points).h[2 * k]? =
      some ⟨(edgeEnds (decide (0 < shoelace (initialVertices points))) points.length k).1,
        .heap (2 * k + 1)⟩ ∧
    (builtMesh points).h[2 * k + 1]? =
      some ⟨(edgeEnds (decide (0 < shoelace (initialVertices points))) points.length k).2,
        .heap (2 * k)⟩ := by
  have h := pairList_getElem? _ 0 k
    (edgeEnds (decide (0 < shoelace (initialVertices points))) points.length k).1
    (edgeEnds (decide (0 < shoelace (initialVertices points))) points.length k).2
    (edgeArgs_od (decide (0 < shoelace (initialVertices points))) points.length k hk)
  rw [builtMesh_h]
  simpa using h

theorem builtMesh_heap_getElem? (points : List Point) (k : Nat) (hk : k < points.length) :
    (builtMesh points).heap[2 * k]? =
      some ⟨(edgeEnds (decide (0 < shoelace (initialVertices points))) points.length k).1,
        .heap (2 * k + 1)⟩ ∧
    (builtMesh points).heap[2 * k + 1]? =
      some ⟨(edgeEnds (decide (0 < shoelace (initialVertices points))) points.length k).2,
        .heap (2 * k)⟩ := by
  have h := pairList_getElem? _ 0 k
    (edgeEnds (decide (0 < shoelace (initialVertices points))) points.length k).1
    (edgeEnds (decide (0 < shoelace (initialVertices points))) points.length k).2
    (edgeArgs_od (decide (0 < shoelace (initialVertices points))) points.length k hk)
  rw [builtMesh_heap]
  simpa using h

/-- The destination of the `k`-th edge is the origin of the next one, cyclically. -/
theorem edgeEnds_chain (counterclockwise : Bool) (n k : Nat) (hn : 1 ≤ n) (hk : k < n) :
    (edgeEnds counterclockwise n k).2 = (edgeEnds counterclockwise n ((k + 1) % n)).1 := by
  cases counterclockwise with
  | true => simp [edgeEnds]
  | false =>
    simp only [edgeEnds, Bool.false_eq_true, if_false]
    rcases Nat.lt_or_ge (k + 1) n with h | h
    · rw [Nat.mod_eq_of_lt h]
      have : n - 1 - k + (n - 1) = (n - 1 - (k + 1)) + n := by omega
      rw [this, Nat.add_mod_right, Nat.mod_eq_of_lt (by omega)]
    · have e : k + 1 = n := by omega
      rw [e, Nat.mod_self]
      have : n - 1 - k = 0 := by omega
      rw [this, Nat.zero_add, Nat.mod_eq_of_lt (by omega), Nat.sub_zero]

theorem range_filterMap_getElem? {α : Type} (l : List α) :
    (List.range l.length).filterMap (fun i => l[i]?) = l := by
  induction l using List.reverseRecOn with
  | nil => rfl
  | append_singleton l a ih =>
    rw [List.length_append, List.length_singleton, List.range_succ, List.filterMap_append]
    have : List.filterMap (fun i => (l ++ [a])[i]?) (List.range l.length) =
        List.filterMap (fun i => l[i]?) (List.range l.length) :=
      List.filterMap_congr (fun i hi => List.getElem?_append_left (by simpa using hi))
    rw [this, ih]
    simp

theorem range_map_sub (n : Nat) :
    (List.range n).map (fun k => n - 1 - k) = (List.range n).reverse := by
  apply List.ext_getElem
  · simp
  · intro i h1 h2
    simp only [List.length_map, List.length_range] at h1
    simp [List.getElem_reverse]

theorem forwardOrigins_builtMesh (points : List Point) :
    forwardOrigins (builtMesh points) points.length =
      if decide (0 < shoelace (initialVertices points)) = true then List.range points.length
      else (List.range points.length).reverse := by
  have h : forwardOrigins (builtMesh points) points.length =
      (List.range points.length).map (fun k =>
        (edgeEnds (decide (0 < shoelace (initialVertices points))) points.length k).1) := by
    unfold forwardOrigins
    rw [← List.filterMap_eq_map]
    apply List.filterMap_congr
    intro k hk
    have hk' : k < points.length := by simpa using hk
    simp [origOf, deref, (builtMesh_h_getElem? points k hk').1]
  rw [h]
  split_ifs with hc
  · simp [edgeEnds, hc]
  · simp only [edgeEnds, hc, Bool.false_eq_true, if_false]
    exact range_map_sub points.length

theorem walkVertices_builtMesh (points : List Point) :
    walkVertices (builtMesh points) points.length =
      if decide (0 < shoelace (initialVertices points)) = true then initialVertices points
      else (initialVertices points).reverse := by
  unfold walkVertices
  rw [forwardOrigins_builtMesh, builtMesh_vertex]
  have hlen := initialVertices_length points
  split_ifs with hc
  · rw [← hlen]; exact range_filterMap_getElem? _
  · rw [List.filterMap_reverse, ← hlen, range_filterMap_getElem?]

/-- Over exact arithmetic the walk of the forward half-edges is a closed chain through every
vertex and winds counterclockwise. -/
theorem createInitialPolygon_walk_exact (points : List Point) (hn : 3 ≤ points.length) :
    ∃ st, createInitialPolygon emptyMesh points = some st ∧
      (∀ k, k < points.length → ∃ a b,
        origOf st (.slot (2 * k)) = some a ∧
        origOf st (.slot (2 * k + 1)) = some b ∧
        origOf st (.slot (2 * ((k + 1) % points.length))) = some b) ∧
      (forwardOrigins st points.length).Perm (List.range st.vertex.length) ∧
      0 ≤ shoelace (walkVertices st points.length) ∧
      (shoelace (initialVertices points) ≠ 0 → 0 < shoelace (walkVertices st points.length)) := by
  refine ⟨builtMesh points, createInitialPolygon_eq points hn, ?_, ?_, ?_, ?_⟩
  · intro k hk
    have hk' : (k + 1) % points.length < points.length := Nat.mod_lt _ (by omega)
    refine ⟨(edgeEnds (decide (0 < shoelace (initialVertices points))) points.length k).1,
      (edgeEnds (decide (0 < shoelace (initialVertices points))) points.length k).2, ?_, ?_, ?_⟩
    · simp only [origOf, deref, (builtMesh_h_getElem? points k hk).1, Option.map_some']
    · simp only [origOf, deref, (builtMesh_h_getElem? points k hk).2, Option.map_some']
    · simp only [origOf, deref, (builtMesh_h_getElem? points _ hk').1, Option.map_some']
      rw [edgeEnds_chain _ _ _ (by omega) hk]
  · rw [forwardOrigins_builtMesh, builtMesh_vertex, initialVertices_length]
    split_ifs
    · exact List.Perm.refl _
    · exact List.reverse_perm _
  · rw [walkVertices_builtMesh]
    split_ifs with hc
    · have : 0 < shoelace (initialVertices points) := by simpa using hc
      exact le_of_lt this
    · have : ¬ 0 < shoelace (initialVertices points) := by simpa using hc
      rw [shoelace_reverse]
      linarith
  · intro hne
    rw [walkVertices_builtMesh]
    split_ifs with hc
    · simpa using hc
    · have : ¬ 0 < shoelace (initialVertices points) := by simpa using hc
      rw [shoelace_reverse]
      rcases lt_or_gt_of_ne hne with h | h
      · linarith
      · exact absurd h this

/-! ### Twin references -/

theorem builtMesh_heap_eq_h (points : List Point) :
    (builtMesh points).heap = (builtMesh points).h := by
  rw [builtMesh_heap, builtMesh_h]

theorem twinOf_slot_even (points : List Point) (k : Nat) (hk : k < points.length) :
    twinOf (builtMesh points) (.slot (2 * k)) = some (.heap (2 * k + 1)) := by
  simp only [twinOf, deref, (builtMesh_h_getElem? points k hk).1, Option.map_some']

theorem twinOf_slot_odd (points : List Point) (k : Nat) (hk : k < points.length) :
    twinOf (builtMesh points) (.slot (2 * k + 1)) = some (.heap (2 * k)) := by
  simp only [twinOf, deref, (builtMesh_h_getElem? points k hk).2, Option.map_some']

theorem twinOf_heap_even (points : List Point) (k : Nat) (hk : k < points.length) :
    twinOf (builtMesh points) (.heap (2 * k)) = some (.heap (2 * k + 1)) := by
  simp only [twinOf, deref, (builtMesh_heap_getElem? points k hk).1, Option.map_some']

theorem twinOf_heap_odd (points : List Point) (k : Nat) (hk : k < points.length) :
    twinOf (builtMesh points) (.heap (2 * k + 1)) = some (.heap (2 * k)) := by
  simp only [twinOf, deref, (builtMesh_heap_getElem? points k hk).2, Option.map_some']

/-- Counterexample to claim C6 as stated: after building the square, following the twin reference
of the element `h[0]` and then the twin reference of that half-edge leads to the first object
allocated with `new`, of which `h[0]` is a copy, and not to the element `h[0]`. -/
theorem twin_twin_square_counterexample :
    ∃ st, createInitialPolygon emptyMesh square = some st ∧
      (twinOf st (.slot 0)).bind (twinOf st) = some (.heap 0) ∧
      (twinOf st (.slot 0)).bind (twinOf st) ≠ some (.slot 0) := by
  have h0 := twinOf_slot_even square 0 (by decide)
  have h1 := twinOf_heap_odd square 0 (by decide)
  simp only [Nat.mul_zero, Nat.zero_add] at h0 h1
  refine ⟨builtMesh square, createInitialPolygon_eq square (by decide), ?_, ?_⟩
  · rw [h0, Option.some_bind, h1]
  · rw [h0, Option.some_bind, h1]
    simp

/-! ## Segment predicates -/

/-- The code of `intersectionProp` in terms of the signs of the four areas. -/
theorem intersectionProp_iff_signs (a b c d : Point) :
    intersectionProp a b c d = true ↔
      ((0 < area2 a b c ∧ area2 a b d < 0) ∨ (area2 a b c < 0 ∧ 0 < area2 a b d)) ∧
      ((0 < area2 c d a ∧ area2 c d b < 0) ∨ (area2 c d a < 0 ∧ 0 < area2 c d b)) := by
  unfold intersectionProp collinear left Xor
  generalize area2 a b c = D1
  generalize area2 a b d = D2
  generalize area2 c d a = D3
  generalize area2 c d b = D4
  rcases lt_trichotomy D1 0 with h1 | h1 | h1 <;>
  rcases lt_trichotomy D2 0 with h2 | h2 | h2 <;>
  rcases lt_trichotomy D3 0 with h3 | h3 | h3 <;>
  rcases lt_trichotomy D4 0 with h4 | h4 | h4 <;>
  simp [h1, h2, h3, h4, not_lt_of_gt, ne_of_lt, ne_of_gt, le_of_lt]

theorem opposite_of_convex {s p q : ℚ} (h0 : 0 < s) (h1 : s < 1) (hp : p ≠ 0)
    (h : (1 - s) * p + s * q = 0) : (0 < p ∧ q < 0) ∨ (p < 0 ∧ 0 < q) := by
  rcases lt_or_gt_of_ne hp with hneg | hpos
  · right
    refine ⟨hneg, ?_⟩
    by_contra hc
    have hq : q ≤ 0 := not_lt.mp hc
    have e1 : (1 - s) * p < 0 := mul_neg_of_pos_of_neg (by linarith) hneg
    have e2 : s * q ≤ 0 := mul_nonpos_of_nonneg_of_nonpos h0.le hq
    linarith
  · left
    refine ⟨hpos, ?_⟩
    by_contra hc
    have hq : 0 ≤ q := not_lt.mp hc
    have e1 : 0 < (1 - s) * p := mul_pos (by linarith) hpos
    have e2 : 0 ≤ s * q := mul_nonneg h0.le hq
    linarith

theorem param_of_opposite {p q : ℚ} (h : (0 < p ∧ q < 0) ∨ (p < 0 ∧ 0 < q)) :
    p - q ≠ 0 ∧ 0 < p / (p - q) ∧ p / (p - q) < 1 := by
  rcases h with ⟨hp, hq⟩ | ⟨hp, hq⟩
  · have hd : 0 < p - q := by linarith
    refine ⟨ne_of_gt hd, div_pos hp hd, ?_⟩
    rw [div_lt_one hd]
    linarith
  · have hd : p - q < 0 := by linarith
    refine ⟨ne_of_lt hd, div_pos_of_neg_of_neg hp hd, ?_⟩
    rw [div_lt_one_of_neg hd]
    linarith

/-- The point `a + s (b - a)` lies on the line `c d` exactly when the areas of `c d a` and
`c d b` balance with weights `1 - s` and `s`. -/
theorem area2_affine (c d a b : Point) (s : ℚ) (px py : ℚ)
    (hx : a.x + s * (b.x - a.x) = px) (hy : a.y + s * (b.y - a.y) = py) :
    (1 - s) * area2 c d a + s * area2 c d b =
      c.x * d.y - d.x * c.y + d.x * py - px * d.y + px * c.y - c.x * py := by
  subst hx hy
  simp only [area2]
  ring

/-- The code of `intersectionProp` as a transversal crossing interior to both segments. -/
theorem intersectionProp_iff_crossing (a b c d : Point) :
    intersectionProp a b c d = true ↔
      (∃ s t : ℚ, 0 < s ∧ s < 1 ∧ 0 < t ∧ t < 1 ∧
        a.x + s * (b.x - a.x) = c.x + t * (d.x - c.x) ∧
        a.y + s * (b.y - a.y) = c.y + t * (d.y - c.y)) ∧
      area2 a b c ≠ 0 ∧ area2 a b d ≠ 0 ∧ area2 c d a ≠ 0 ∧ area2 c d b ≠ 0 := by
  rw [intersectionProp_iff_signs]
  constructor
  · rintro ⟨h12, h34⟩
    obtain ⟨hd1, ht0, ht1⟩ := param_of_opposite h12
    obtain ⟨hd3, hs0, hs1⟩ := param_of_opposite h34
    refine ⟨⟨area2 c d a / (area2 c d a - area2 c d b),
      area2 a b c / (area2 a b c - area2 a b d), hs0, hs1, ht0, ht1, ?_, ?_⟩, ?_⟩
    · have hs : area2 c d a / (area2 c d a - area2 c d b) * (area2 c d a - area2 c d b) =
          area2 c d a := div_mul_cancel₀ _ hd3
      have ht : area2 a b c / (area2 a b c - area2 a b d) * (area2 a b c - area2 a b d) =
          area2 a b c := div_mul_cancel₀ _ hd1
      generalize area2 c d a / (area2 c d a - area2 c d b) = s at hs ⊢
      generalize area2 a b c / (area2 a b c - area2 a b d) = t at ht ⊢
      have key : (area2 c d a - area2 c d b) *
          (a.x + s * (b.x - a.x) - (c.x + t * (d.x - c.x))) = 0 := by
        simp only [area2] at hs ht ⊢
        linear_combination (b.x - a.x) * hs + (d.x - c.x) * ht
      rcases mul_eq_zero.mp key with h | h
      · exact absurd h hd3
      · linarith
    · have hs : area2 c d a / (area2 c d a - area2 c d b) * (area2 c d a - area2 c d b) =
          area2 c d a := div_mul_cancel₀ _ hd3
      have ht : area2 a b c / (area2 a b c - area2 a b d) * (area2 a b c - area2 a b d) =
          area2 a b c := div_mul_cancel₀ _ hd1
      generalize area2 c d a / (area2 c d a - area2 c d b) = s at hs ⊢
      generalize area2 a b c / (area2 a b c - area2 a b d) = t at ht ⊢
      have key : (area2 c d a - area2 c d b) *
          (a.y + s * (b.y - a.y) - (c.y + t * (d.y - c.y))) = 0 := by
        simp only [area2] at hs ht ⊢
        linear_combination (b.y - a.y) * hs + (d.y - c.y) * ht
      rcases mul_eq_zero.mp key with h | h
      · exact absurd h hd3
      · linarith
    · rcases h12 with ⟨h1, h2⟩ | ⟨h1, h2⟩ <;> rcases h34 with ⟨h3, h4⟩ | ⟨h3, h4⟩ <;>
        refine ⟨?_, ?_, ?_, ?_⟩ <;> intro h <;> linarith
  · rintro ⟨⟨s, t, hs0, hs1, ht0, ht1, hx, hy⟩, n1, n2, n3, n4⟩
    have e34 : (1 - s) * area2 c d a + s * area2 c d b = 0 := by
      rw [area2_affine c d a b s _ _ hx hy]
      ring
    have e12 : (1 - t) * area2 a b c + t * area2 a b d = 0 := by
      rw [area2_affine a b c d t _ _ hx.symm hy.symm]
      ring
    exact ⟨opposite_of_convex ht0 ht1 n1 e12, opposite_of_convex hs0 hs1 n3 e34⟩

/-- Claim C7. Over exact arithmetic, `intersectionProp a b c d` is true exactly when the segments
`ab` and `cd` cross transversally at a point interior to both (parameters `s`, `t` strictly
between 0 and 1 with `a + s (b - a) = c + t (d - c)`, none of the four triples collinear);
equivalently, when `c` and `d` lie strictly on opposite sides of line `ab` and `a` and `b` lie
strictly on opposite sides of line `cd`. -/
theorem intersectionProp_transversal (a b c d : Point) :
    (intersectionProp a b c d = true ↔
      (∃ s t : ℚ, 0 < s ∧ s < 1 ∧ 0 < t ∧ t < 1 ∧
        a.x + s * (b.x - a.x) = c.x + t * (d.x - c.x) ∧
        a.y + s * (b.y - a.y) = c.y + t * (d.y - c.y)) ∧
      area2 a b c ≠ 0 ∧ area2 a b d ≠ 0 ∧ area2 c d a ≠ 0 ∧ area2 c d b ≠ 0) ∧
    (intersectionProp a b c d = true ↔
      ((0 < area2 a b c ∧ area2 a b d < 0) ∨ (area2 a b c < 0 ∧ 0 < area2 a b d)) ∧
      ((0 < area2 c d a ∧ area2 c d b < 0) ∨ (area2 c d a < 0 ∧ 0 < area2 c d b))) :=
  ⟨intersectionProp_iff_crossing a b c d, intersectionProp_iff_signs a b c d⟩

/-- The code of `between` as a proposition. -/
theorem between_eq_true (a b c : Point) :
    between a b c = true ↔
      area2 a b c = 0 ∧ (if a.x ≠ b.x then InRange a.x b.x c.x else InRange a.y b.y c.y) := by
  unfold between collinear InRange
  by_cases harea : area2 a b c = 0 <;> by_cases hx : a.x = b.x <;> simp [harea, hx]

theorem inRange_of_param {p q r t : ℚ} (h0 : 0 ≤ t) (h1 : t ≤ 1) (h : r = p + t * (q - p)) :
    InRange p q r := by
  rcases le_total p q with hpq | hpq
  · left
    have e1 : 0 ≤ t * (q - p) := mul_nonneg h0 (by linarith)
    have e2 : 0 ≤ (1 - t) * (q - p) := mul_nonneg (by linarith) (by linarith)
    constructor <;> nlinarith
  · right
    have e1 : 0 ≤ t * (p - q) := mul_nonneg h0 (by linarith)
    have e2 : 0 ≤ (1 - t) * (p - q) := mul_nonneg (by linarith) (by linarith)
    constructor <;> nlinarith

theorem param_of_inRange {p q r t : ℚ} (hpq : p ≠ q) (h : r = p + t * (q - p))
    (hr : InRange p q r) : 0 ≤ t ∧ t ≤ 1 := by
  rcases hr with ⟨h1, h2⟩ | ⟨h1, h2⟩
  · have hlt : 0 < q - p := by
      rcases lt_or_gt_of_ne hpq with h3 | h3
      · linarith
      · linarith
    constructor
    · by_contra hc
      have : t * (q - p) < 0 := mul_neg_of_neg_of_pos (not_le.mp hc) hlt
      linarith
    · by_contra hc
      have : 0 < (t - 1) * (q - p) := mul_pos (by linarith [not_le.mp hc]) hlt
      nlinarith
  · have hlt : 0 < p - q := by
      rcases lt_or_gt_of_ne hpq with h3 | h3
      · linarith
      · linarith
    constructor
    · by_contra hc
      have : t * (p - q) < 0 := mul_neg_of_neg_of_pos (not_le.mp hc) hlt
      nlinarith
    · by_contra hc
      have : 0 < (t - 1) * (p - q) := mul_pos (by linarith [not_le.mp hc]) hlt
      nlinarith

/-- A point collinear with two distinct plane points lies on their line, with a parameter. -/
theorem line_param (a b c : Point) (hab : a.x ≠ b.x ∨ a.y ≠ b.y) (h : area2 a b c = 0) :
    ∃ u : ℚ, c.x = a.x + u * (b.x - a.x) ∧ c.y = a.y + u * (b.y - a.y) := by
  simp only [area2] at h
  by_cases hx : a.x = b.x
  · have hy : b.y - a.y ≠ 0 := by
      rcases hab with h1 | h1
      · exact absurd hx h1
      · exact sub_ne_zero.mpr (Ne.symm h1)
    have hu : (c.y - a.y) / (b.y - a.y) * (b.y - a.y) = c.y - a.y := div_mul_cancel₀ _ hy
    refine ⟨(c.y - a.y) / (b.y - a.y), ?_, by linarith⟩
    have key : (b.y - a.y) * (c.x - a.x) = 0 := by
      rw [← hx] at h
      linear_combination -h
    rcases mul_eq_zero.mp key with h1 | h1
    · exact absurd h1 hy
    · rw [hx] at h1 ⊢
      simp only [sub_self, mul_zero, add_zero]
      linarith
  · have hx' : b.x - a.x ≠ 0 := sub_ne_zero.mpr (Ne.symm hx)
    have hu : (c.x - a.x) / (b.x - a.x) * (b.x - a.x) = c.x - a.x := div_mul_cancel₀ _ hx'
    refine ⟨(c.x - a.x) / (b.x - a.x), by linarith, ?_⟩
    generalize (c.x - a.x) / (b.x - a.x) = u at hu ⊢
    have key : (b.x - a.x) * (c.y - (a.y + u * (b.y - a.y))) = 0 := by
      linear_combination h - (b.y - a.y) * hu
    rcases mul_eq_zero.mp key with h1 | h1
    · exact absurd h1 hx'
    · linarith

theorem between_of_onSegment (a b c : Point) (h : OnSegment a b c.x c.y) :
    between a b c = true := by
  obtain ⟨t, h0, h1, hx, hy⟩ := h
  rw [between_eq_true]
  constructor
  · simp only [area2]
    rw [hx, hy]
    ring
  · split_ifs
    · exact inRange_of_param h0 h1 hx
    · exact inRange_of_param h0 h1 hy

theorem onSegment_of_between (a b c : Point) (hab : a.x ≠ b.x ∨ a.y ≠ b.y)
    (h : between a b c = true) : OnSegment a b c.x c.y := by
  rw [between_eq_true] at h
  obtain ⟨harea, hr⟩ := h
  obtain ⟨u, hx, hy⟩ := line_param a b c hab harea
  by_cases hxx : a.x = b.x
  · have hyy : a.y ≠ b.y := by
      rcases hab with h1 | h1
      · exact absurd hxx h1
      · exact h1
    rw [if_neg (not_not.mpr hxx)] at hr
    obtain ⟨h0, h1⟩ := param_of_inRange hyy hy hr
    exact ⟨u, h0, h1, hx, hy⟩
  · rw [if_pos hxx] at hr
    obtain ⟨h0, h1⟩ := param_of_inRange hxx hx hr
    exact ⟨u, h0, h1, hx, hy⟩

/-- Claim C9. Over exact arithmetic, for `a ≠ b` (as points of the plane: the third component is
never read and is 0 throughout the program), `between a b c` is true exactly when `c` lies on the
closed segment from `a` to `b`: `c = a + t (b - a)` for some `0 ≤ t ≤ 1`. -/
theorem between_iff_onSegment (a b c : Point) (hab : a.x ≠ b.x ∨ a.y ≠ b.y) :
    between a b c = true ↔
      ∃ t : ℚ, 0 ≤ t ∧ t ≤ 1 ∧ c.x = a.x + t * (b.x - a.x) ∧ c.y = a.y + t * (b.y - a.y) :=
  ⟨onSegment_of_between a b c hab, between_of_onSegment a b c⟩

theorem between_iff_onSegment_witness :
    ((pt 0 0).x ≠ (pt 2 0).x ∨ (pt 0 0).y ≠ (pt 2 0).y) ∧
    (between (pt 0 0) (pt 2 0) (pt 1 0) = true ↔
      ∃ t : ℚ, 0 ≤ t ∧ t ≤ 1 ∧ (pt 1 0).x = (pt 0 0).x + t * ((pt 2 0).x - (pt 0 0).x) ∧
        (pt 1 0).y = (pt 0 0).y + t * ((pt 2 0).y - (pt 0 0).y)) :=
  ⟨Or.inl (by simp [pt]),
    between_iff_onSegment (pt 0 0) (pt 2 0) (pt 1 0) (Or.inl (by simp [pt]))⟩

/-- The code of `intersect` as a proposition. -/
theorem intersect_eq_true (a b c d : Point) :
    intersect a b c d = true ↔
      intersectionProp a b c d = true ∨ between a b c = true ∨ between a b d = true ∨
        between c d a = true ∨ between c d b = true := by
  unfold intersect
  cases intersectionProp a b c d <;> cases between a b c <;> cases between a b d <;>
    cases between c d a <;> cases between c d b <;> simp

/-- Two closed segments on one line that share a point: an endpoint of one lies on the other. -/
theorem between_of_collinear_overlap (a b c d : Point) (hab : a.x ≠ b.x ∨ a.y ≠ b.y)
    (h1 : area2 a b c = 0) (h2 : area2 a b d = 0) (s t : ℚ) (hs0 : 0 ≤ s) (hs1 : s ≤ 1)
    (ht0 : 0 ≤ t) (ht1 : t ≤ 1)
    (hx : a.x + s * (b.x - a.x) = c.x + t * (d.x - c.x))
    (hy : a.y + s * (b.y - a.y) = c.y + t * (d.y - c.y)) :
    between a b c = true ∨ between a b d = true ∨ between c d a = true := by
  obtain ⟨u, hux, huy⟩ := line_param a b c hab h1
  obtain ⟨v, hvx, hvy⟩ := line_param a b d hab h2
  have hs : s = u + t * (v - u) := by
    have kx : (b.x - a.x) * (s - (u + t * (v - u))) = 0 := by
      rw [hux, hvx] at hx
      linear_combination hx
    have ky : (b.y - a.y) * (s - (u + t * (v - u))) = 0 := by
      rw [huy, hvy] at hy
      linear_combination hy
    rcases hab with h | h
    · rcases mul_eq_zero.mp kx with h' | h'
      · exact absurd (sub_eq_zero.mp h').symm h
      · linarith
    · rcases mul_eq_zero.mp ky with h' | h'
      · exact absurd (sub_eq_zero.mp h').symm h
      · linarith
  by_cases hu : 0 ≤ u ∧ u ≤ 1
  · left
    exact between_of_onSegment a b c ⟨u, hu.1, hu.2, hux, huy⟩
  by_cases hv : 0 ≤ v ∧ v ≤ 1
  · right; left
    exact between_of_onSegment a b d ⟨v, hv.1, hv.2, hvx, hvy⟩
  right; right
  have hopp : (0 < u ∧ v < 0) ∨ (u < 0 ∧ 0 < v) := by
    have e1 : 0 ≤ t * (v - u) ∨ t * (v - u) ≤ 0 := le_total _ _
    have e2 : 0 ≤ (1 - t) * (v - u) ∨ (1 - t) * (v - u) ≤ 0 := le_total _ _
    rcases lt_or_le u 0 with hu0 | hu0
    · right
      refine ⟨hu0, ?_⟩
      by_contra hc
      have hv0 : v ≤ 0 := not_lt.mp hc
      have p1 : 0 ≤ (1 - t) * (-u) := mul_nonneg (by linarith) (by linarith)
      have p2 : 0 ≤ t * (-v) := mul_nonneg ht0 (by linarith)
      have hs' : s = 0 := by nlinarith
      have p3 : (1 - t) * u = 0 := by nlinarith
      have p4 : t * v = 0 := by nlinarith
      rcases mul_eq_zero.mp p3 with h | h
      · have ht : t = 1 := by linarith
        rw [ht] at p4
        have : v = 0 := by linarith
        exact hv ⟨by linarith, by linarith⟩
      · linarith
    · have hu1 : 1 < u := by
        by_contra hc
        exact hu ⟨hu0, not_lt.mp hc⟩
      left
      refine ⟨by linarith, ?_⟩
      by_contra hc
      have hv0 : 0 ≤ v := not_lt.mp hc
      have hv1 : 1 < v := by
        by_contra hc'
        exact hv ⟨hv0, not_lt.mp hc'⟩
      have p1 : 0 ≤ (1 - t) * (u - 1) := mul_nonneg (by linarith) (by linarith)
      have p2 : 0 ≤ t * (v - 1) := mul_nonneg ht0 (by linarith)
      have p5 : (1 - t) * (u - 1) + t * (v - 1) = 0 := by nlinarith
      have p3 : (1 - t) * (u - 1) = 0 := by linarith
      have p4 : t * (v - 1) = 0 := by linarith
      rcases mul_eq_zero.mp p3 with h | h
      · have ht : t = 1 := by linarith
        rw [ht] at p4
        linarith
      · linarith
  obtain ⟨hne, hp0, hp1⟩ := param_of_opposite hopp
  have hw : u / (u - v) * (u - v) = u := div_mul_cancel₀ _ hne
  refine between_of_onSegment c d a ⟨u / (u - v), hp0.le, hp1.le, ?_, ?_⟩
  · generalize u / (u - v) = w at hw ⊢
    rw [hvx, hux]
    linear_combination (b.x - a.x) * hw
  · generalize u / (u - v) = w at hw ⊢
    rw [hvy, huy]
    linear_combination (b.y - a.y) * hw

theorem onSegment_start (c d : Point) : OnSegment c d c.x c.y :=
  ⟨0, le_refl 0, zero_le_one, by ring, by ring⟩

theorem onSegment_end (c d : Point) : OnSegment c d d.x d.y :=
  ⟨1, zero_le_one, le_refl 1, by ring, by ring⟩

theorem intersect_of_shared_point (a b c d : Point) (hab : a.x ≠ b.x ∨ a.y ≠ b.y)
    (hcd : c.x ≠ d.x ∨ c.y ≠ d.y) (s t : ℚ) (hs0 : 0 ≤ s) (hs1 : s ≤ 1) (ht0 : 0 ≤ t)
    (ht1 : t ≤ 1) (hx : a.x + s * (b.x - a.x) = c.x + t * (d.x - c.x))
    (hy : a.y + s * (b.y - a.y) = c.y + t * (d.y - c.y)) : intersect a b c d = true := by
  rw [intersect_eq_true]
  have e34 : (1 - s) * area2 c d a + s * area2 c d b = 0 := by
    rw [area2_affine c d a b s _ _ hx hy]
    ring
  have e12 : (1 - t) * area2 a b c + t * area2 a b d = 0 := by
    rw [area2_affine a b c d t _ _ hx.symm hy.symm]
    ring
  by_cases h1 : area2 a b c = 0
  · by_cases h2 : area2 a b d = 0
    · rcases between_of_collinear_overlap a b c d hab h1 h2 s t hs0 hs1 ht0 ht1 hx hy with
        h | h | h
      · exact Or.inr (Or.inl h)
      · exact Or.inr (Or.inr (Or.inl h))
      · exact Or.inr (Or.inr (Or.inr (Or.inl h)))
    · have ht : t = 0 := by
        rw [h1, mul_zero, zero_add] at e12
        rcases mul_eq_zero.mp e12 with h | h
        · exact h
        · exact absurd h h2
      subst ht
      refine Or.inr (Or.inl (between_of_onSegment a b c ⟨s, hs0, hs1, ?_, ?_⟩))
      · linarith
      · linarith
  · by_cases h2 : area2 a b d = 0
    · have ht : t = 1 := by
        rw [h2, mul_zero, add_zero] at e12
        rcases mul_eq_zero.mp e12 with h | h
        · linarith
        · exact absurd h h1
      subst ht
      refine Or.inr (Or.inr (Or.inl (between_of_onSegment a b d ⟨s, hs0, hs1, ?_, ?_⟩)))
      · linarith
      · linarith
    · by_cases h3 : area2 c d a = 0
      · by_cases h4 : area2 c d b = 0
        · rcases between_of_collinear_overlap c d a b hcd h3 h4 t s ht0 ht1 hs0 hs1 hx.symm
            hy.symm with h | h | h
          · exact Or.inr (Or.inr (Or.inr (Or.inl h)))
          · exact Or.inr (Or.inr (Or.inr (Or.inr h)))
          · exact Or.inr (Or.inl h)
        · have hs : s = 0 := by
            rw [h3, mul_zero, zero_add] at e34
            rcases mul_eq_zero.mp e34 with h | h
            · exact h
            · exact absurd h h4
          subst hs
          refine Or.inr (Or.inr (Or.inr (Or.inl
            (between_of_onSegment c d a ⟨t, ht0, ht1, ?_, ?_⟩))))
          · linarith
          · linarith
      · by_cases h4 : area2 c d b = 0
        · have hs : s = 1 := by
            rw [h4, mul_zero, add_zero] at e34
            rcases mul_eq_zero.mp e34 with h | h
            · linarith
            · exact absurd h h3
          subst hs
          refine Or.inr (Or.inr (Or.inr (Or.inr
            (between_of_onSegment c d b ⟨t, ht0, ht1, ?_, ?_⟩))))
          · linarith
          · linarith
        · left
          rw [intersectionProp_iff_crossing]
          have hs0' : 0 < s := by
            rcases eq_or_lt_of_le hs0 with h | h
            · rw [← h] at e34
              simp only [sub_zero, one_mul, zero_mul, add_zero] at e34
              exact absurd e34 h3
            · exact h
          have hs1' : s < 1 := by
            rcases eq_or_lt_of_le hs1 with h | h
            · rw [h] at e34
              simp only [sub_self, zero_mul, one_mul, zero_add] at e34
              exact absurd e34 h4
            · exact h
          have ht0' : 0 < t := by
            rcases eq_or_lt_of_le ht0 with h | h
            · rw [← h] at e12
              simp only [sub_zero, one_mul, zero_mul, add_zero] at e12
              exact absurd e12 h1
            · exact h
          have ht1' : t < 1 := by
            rcases eq_or_lt_of_le ht1 with h | h
            · rw [h] at e12
              simp only [sub_self, zero_mul, one_mul, zero_add] at e12
              exact absurd e12 h2
            · exact h
          exact ⟨⟨s, t, hs0', hs1', ht0', ht1', hx, hy⟩, h1, h2, h3, h4⟩

/-- Claim C8. Over exact arithmetic, for `a ≠ b` and `c ≠ d` (as points of the plane: the third
component is never read and is 0 throughout the program), `intersect a b c d` is true exactly
when the closed segments `ab` and `cd` share at least one point: a proper crossing, an endpoint
touching the other segment, or a collinear overlap. -/
theorem intersect_iff_shared_point (a b c d : Point) (hab : a.x ≠ b.x ∨ a.y ≠ b.y)
    (hcd : c.x ≠ d.x ∨ c.y ≠ d.y) :
    intersect a b c d = true ↔ ∃ px py : ℚ, OnSegment a b px py ∧ OnSegment c d px py := by
  constructor
  · intro h
    rw [intersect_eq_true] at h
    rcases h with h | h | h | h | h
    · rw [intersectionProp_iff_crossing] at h
      obtain ⟨⟨s, t, hs0, hs1, ht0, ht1, hx, hy⟩, _⟩ := h
      exact ⟨a.x + s * (b.x - a.x), a.y + s * (b.y - a.y), ⟨s, hs0.le, hs1.le, rfl, rfl⟩,
        ⟨t, ht0.le, ht1.le, hx, hy⟩⟩
    · exact ⟨c.x, c.y, onSegment_of_between a b c hab h, onSegment_start c d⟩
    · exact ⟨d.x, d.y, onSegment_of_between a b d hab h, onSegment_end c d⟩
    · exact ⟨a.x, a.y, onSegment_start a b, onSegment_of_between c d a hcd h⟩
    · exact ⟨b.x, b.y, onSegment_end a b, onSegment_of_between c d b hcd h⟩
  · rintro ⟨px, py, ⟨s, hs0, hs1, hsx, hsy⟩, ⟨t, ht0, ht1, htx, hty⟩⟩
    exact intersect_of_shared_point a b c d hab hcd s t hs0 hs1 ht0 ht1 (by rw [← hsx, htx])
      (by rw [← hsy, hty])

theorem intersect_iff_shared_point_witness :
    ((pt 0 0).x ≠ (pt 2 0).x ∨ (pt 0 0).y ≠ (pt 2 0).y) ∧
    ((pt 1 0).x ≠ (pt 1 1).x ∨ (pt 1 0).y ≠ (pt 1 1).y) ∧
    (intersect (pt 0 0) (pt 2 0) (pt 1 0) (pt 1 1) = true ↔
      ∃ px py : ℚ, OnSegment (pt 0 0) (pt 2 0) px py ∧ OnSegment (pt 1 0) (pt 1 1) px py) :=
  ⟨Or.inl (by simp [pt]), Or.inr (by simp [pt]),
    intersect_iff_shared_point (pt 0 0) (pt 2 0) (pt 1 0) (pt 1 1) (Or.inl (by simp [pt]))
      (Or.inr (by simp [pt]))⟩

/-! ## The diagonal test -/

theorem diagonalieLoop_spec (points : List Point) (v1 v2 : Point) :
    ∀ (k i : Nat), i + k < points.length →
      ∃ r, diagonalieLoop points v1 v2 k i = some r ∧
        (r = false ↔ ∃ j, i ≤ j ∧ j < i + k ∧ Blocks points v1 v2 j) := by
  intro k
  induction k with
  | zero =>
    intro i _
    refine ⟨true, rfl, ?_⟩
    constructor
    · intro h; cases h
    · rintro ⟨j, h1, h2, _⟩; omega
  | succ k ih =>
    intro i hlt
    obtain ⟨p, hp⟩ : ∃ p, points[i]? = some p := ⟨_, List.getElem?_eq_getElem (by omega)⟩
    obtain ⟨q, hq⟩ : ∃ q, points[i + 1]? = some q := ⟨_, List.getElem?_eq_getElem (by omega)⟩
    rw [diagonalieLoop, hp, hq]
    simp only []
    split_ifs with hc
    · refine ⟨false, rfl, ?_⟩
      constructor
      · intro _
        exact ⟨i, le_refl i, by omega, p, q, hp, hq, hc.1, hc.2.1, hc.2.2⟩
      · intro _; rfl
    · obtain ⟨r, hr, hiff⟩ := ih (i + 1) (by omega)
      refine ⟨r, hr, ?_⟩
      rw [hiff]
      constructor
      · rintro ⟨j, h1, h2, hb⟩
        exact ⟨j, by omega, by omega, hb⟩
      · rintro ⟨j, h1, h2, hb⟩
        rcases eq_or_lt_of_le h1 with h | h
        · subst h
          obtain ⟨p', q', hp', hq', c1, c2, c3⟩ := hb
          rw [hp] at hp'
          rw [hq] at hq'
          cases hp'
          cases hq'
          exact absurd ⟨c1, c2, c3⟩ hc
        · exact ⟨j, by omega, by omega, hb⟩

theorem diagonalie_spec (points : List Point) (v1 v2 : Point) (hne : points ≠ []) :
    ∃ r, diagonalie points v1 v2 = some r ∧ (r = false ↔ ∃ j, Blocks points v1 v2 j) := by
  have hpos : 0 < points.length := List.length_pos.mpr hne
  obtain ⟨r, hr, hiff⟩ := diagonalieLoop_spec points v1 v2 (points.length - 1) 0 (by omega)
  refine ⟨r, ?_, ?_⟩
  · unfold diagonalie
    rw [sizeMinusOne_of_pos hpos]
    exact hr
  · rw [hiff]
    constructor
    · rintro ⟨j, _, _, hb⟩
      exact ⟨j, hb⟩
    · rintro ⟨j, hb⟩
      refine ⟨j, Nat.zero_le j, ?_, hb⟩
      obtain ⟨p, q, _, hq, _⟩ := hb
      have : j + 1 < points.length := by
        by_contra hc
        rw [List.getElem?_eq_none (by omega)] at hq
        cases hq
      omega

theorem diagonalie_empty (v1 v2 : Point) : diagonalie [] v1 v2 = none := by
  show diagonalieLoop [] v1 v2 (18446744073709551614 + 1) 0 = none
  rfl

theorem intersect_notched :
    intersect (pt 0 0) (pt 4 0) (pt 3 1) (pt 2 0) = true ∧
    intersectionProp (pt 0 0) (pt 4 0) (pt 3 1) (pt 2 0) = false := by
  constructor
  · rw [intersect_eq_true]
    right; right; left
    rw [between_eq_true]
    norm_num [area2, pt, InRange]
  · rw [← Bool.not_eq_true, intersectionProp_iff_signs]
    norm_num [area2, pt]

theorem not_blocksProperly_notched : ¬ ∃ j, BlocksProperly notched (pt 0 0) (pt 4 0) j := by
  rintro ⟨j, p, q, hp, hq, c1, c2, c3⟩
  have hj : j + 1 < 6 := by
    by_contra hc
    rw [List.getElem?_eq_none (by simp only [notched, List.length_cons, List.length_nil]; omega)]
      at hq
    cases hq
  rw [intersectionProp_iff_signs] at c3
  have hj' : j < 5 := by omega
  interval_cases j <;> simp only [notched, List.getElem?_cons_zero, List.getElem?_cons_succ,
    Option.some.injEq] at hp hq <;> subst hp <;> subst hq
  · exact c1.1 rfl
  · exact c2.2 rfl
  · exact c1.2 rfl
  · norm_num [area2, pt] at c3
  · norm_num [area2, pt] at c3

/-- Counterexample to claim C10 as stated: on the hexagon `notched`, `diagonalie` returns false for
the segment from `(0,0)` to `(4,0)` although that segment properly intersects no consecutive edge
free of its endpoints; it only touches the edge from `(3,1)` to `(2,0)` at the vertex `(2,0)`.
And on the empty point list `diagonalie` does not return: `points.size() - 1` wraps and
`points[0]` is read outside the vector. -/
theorem diagonalie_notched_counterexample :
    diagonalie notched (pt 0 0) (pt 4 0) = some false ∧
    (¬ ∃ j, BlocksProperly notched (pt 0 0) (pt 4 0) j) ∧
    diagonalie [] (pt 0 0) (pt 4 0) = none := by
  refine ⟨?_, not_blocksProperly_notched, diagonalie_empty _ _⟩
  obtain ⟨r, hr, hiff⟩ := diagonalie_spec notched (pt 0 0) (pt 4 0) (by simp [notched])
  have : r = false := hiff.mpr ⟨3, pt 3 1, pt 2 0, rfl, rfl, ⟨by simp [pt], by simp [pt]⟩,
    ⟨by simp [pt], by simp [pt]⟩, intersect_notched.1⟩
  rw [hr, this]

/-- Claim C10, amended. For every non-empty point list and all points `v1`, `v2`, `diagonalie`
returns; it returns false exactly when the segment `v1 v2` intersects in the sense of `intersect`
(a transversal crossing, a touch or a collinear overlap) some consecutive edge
`(points[i], points[i+1])` neither of whose endpoints equals `v1` or `v2`, and true otherwise. -/
theorem diagonalie_iff (points : List Point) (v1 v2 : Point) (hne : points ≠ []) :
    (diagonalie points v1 v2 = some false ↔ ∃ j, Blocks points v1 v2 j) ∧
    (diagonalie points v1 v2 = some true ↔ ¬ ∃ j, Blocks points v1 v2 j) := by
  obtain ⟨r, hr, hiff⟩ := diagonalie_spec points v1 v2 hne
  rw [hr, ← hiff]
  cases r <;> simp

theorem diagonalie_iff_witness :
    notched ≠ [] ∧
    (diagonalie notched (pt 0 0) (pt 4 0) = some false ↔
      ∃ j, Blocks notched (pt 0 0) (pt 4 0) j) ∧
    (diagonalie notched (pt 0 0) (pt 4 0) = some true ↔
      ¬ ∃ j, Blocks notched (pt 0 0) (pt 4 0) j) :=
  ⟨by simp [notched], diagonalie_iff notched (pt 0 0) (pt 4 0) (by simp [notched])⟩

/-! ## Area and side tests -/

theorem area2_swap23 (a b c : Point) : area2 a b c = -area2 a c b := by
  simp only [area2]; ring

theorem area2_swap12 (a b c : Point) : area2 b a c = -area2 a b c := by
  simp only [area2]; ring

/-- Claim C12. Over exact arithmetic, `area2 a b c = -area2 a c b` for all points; consequently
for a non-collinear triple `left a b c` and `left a c b` have opposite truth values. -/
theorem area2_antisymm (a b c : Point) :
    area2 a b c = -area2 a c b ∧
    (collinear a b c = false → left a b c = !left a c b) := by
  refine ⟨area2_swap23 a b c, ?_⟩
  intro hc
  have hne : area2 a b c ≠ 0 := by simpa [collinear] using hc
  have e := area2_swap23 a b c
  unfold left
  rcases lt_or_gt_of_ne hne with h | h
  · have h1 : ¬ area2 a b c > 0 := by linarith
    have h2 : area2 a c b > 0 := by linarith
    simp [h1, h2]
  · have h1 : area2 a b c > 0 := h
    have h2 : ¬ area2 a c b > 0 := by linarith
    simp [h1, h2]

/-- Claim C13. For all points, `leftOn` holds exactly when `left` or `collinear` holds, and
`left` and `collinear` never both hold; for `(0,0)`, `(1,0)`, `(2,0)` the test `collinear` is
true, `left` is false and `leftOn` is true. -/
theorem leftOn_iff_left_or_collinear (a b c : Point) :
    (leftOn a b c = true ↔ left a b c = true ∨ collinear a b c = true) ∧
    ¬ (left a b c = true ∧ collinear a b c = true) ∧
    collinear (pt 0 0) (pt 1 0) (pt 2 0) = true ∧
    left (pt 0 0) (pt 1 0) (pt 2 0) = false ∧
    leftOn (pt 0 0) (pt 1 0) (pt 2 0) = true := by
  refine ⟨?_, ?_, ?_, ?_, ?_⟩
  · simp only [leftOn, left, collinear, decide_eq_true_eq, ge_iff_le, gt_iff_lt]
    constructor
    · intro h
      rcases eq_or_lt_of_le h with h' | h'
      · exact Or.inr h'.symm
      · exact Or.inl h'
    · rintro (h | h)
      · exact le_of_lt h
      · exact le_of_eq h.symm
  · simp only [left, collinear, decide_eq_true_eq, gt_iff_lt]
    rintro ⟨h1, h2⟩
    linarith
  · norm_num [collinear, area2, pt]
  · norm_num [left, area2, pt]
  · norm_num [leftOn, area2, pt]

/-- Claim C14. For every vertex list with fewer than 3 vertices, and whatever `points.size()` is,
`polygonOrientation` returns false; no vertex is read, a read being a fault on the empty list. -/
theorem polygonOrientation_few (vertex : List Vertex_t) (pointsSize : Nat)
    (h : vertex.length < 3) : polygonOrientation vertex pointsSize = some false := by
  unfold polygonOrientation
  rw [if_pos h]

theorem polygonOrientation_few_witness :
    ([] : List Vertex_t).length < 3 ∧ polygonOrientation [] 0 = some false :=
  ⟨by decide, polygonOrientation_few [] 0 (by decide)⟩

/-! ## Symmetry of the diagonal test -/

theorem inRange_symm (p q r : ℚ) : InRange p q r ↔ InRange q p r := by
  unfold InRange
  constructor <;> rintro (⟨h1, h2⟩ | ⟨h1, h2⟩)
  · exact Or.inr ⟨h2, h1⟩
  · exact Or.inl ⟨h2, h1⟩
  · exact Or.inr ⟨h2, h1⟩
  · exact Or.inl ⟨h2, h1⟩

theorem between_symm (a b p : Point) : between a b p = between b a p := by
  rw [Bool.eq_iff_iff, between_eq_true, between_eq_true, area2_swap12 a b p, neg_eq_zero,
    inRange_symm b.x a.x, inRange_symm b.y a.y]
  by_cases h : a.x = b.x
  · have h' : ¬ b.x ≠ a.x := by simp [h]
    have h'' : ¬ a.x ≠ b.x := by simp [h]
    rw [if_neg h', if_neg h'']
  · have h' : b.x ≠ a.x := fun e => h e.symm
    rw [if_pos h', if_pos h]

theorem intersectionProp_symm (a b p q : Point) :
    intersectionProp a b p q = intersectionProp b a p q := by
  rw [Bool.eq_iff_iff, intersectionProp_iff_signs, intersectionProp_iff_signs,
    area2_swap12 a b p, area2_swap12 a b q]
  constructor
  · rintro ⟨h1, h2⟩
    refine ⟨?_, ?_⟩
    · rcases h1 with ⟨h, h'⟩ | ⟨h, h'⟩
      · exact Or.inr ⟨by linarith, by linarith⟩
      · exact Or.inl ⟨by linarith, by linarith⟩
    · rcases h2 with ⟨h, h'⟩ | ⟨h, h'⟩
      · exact Or.inr ⟨h', h⟩
      · exact Or.inl ⟨h', h⟩
  · rintro ⟨h1, h2⟩
    refine ⟨?_, ?_⟩
    · rcases h1 with ⟨h, h'⟩ | ⟨h, h'⟩
      · exact Or.inr ⟨by linarith, by linarith⟩
      · exact Or.inl ⟨by linarith, by linarith⟩
    · rcases h2 with ⟨h, h'⟩ | ⟨h, h'⟩
      · exact Or.inr ⟨h', h⟩
      · exact Or.inl ⟨h', h⟩

theorem intersect_symm (a b p q : Point) : intersect a b p q = intersect b a p q := by
  rw [Bool.eq_iff_iff, intersect_eq_true, intersect_eq_true, intersectionProp_symm a b p q,
    between_symm a b p, between_symm a b q]
  tauto

theorem diagonalieLoop_symm (points : List Point) (v1 v2 : Point) :
    ∀ k i : Nat, diagonalieLoop points v1 v2 k i = diagonalieLoop points v2 v1 k i := by
  intro k
  induction k with
  | zero => intro i; rfl
  | succ k ih =>
    intro i
    rw [diagonalieLoop, diagonalieLoop]
    cases points[i]? with
    | none => rfl
    | some p =>
      cases points[i + 1]? with
      | none => rfl
      | some q =>
        simp only []
        rw [ih (i + 1), intersect_symm v1 v2 p q]
        by_cases hc : (p ≠ v1 ∧ p ≠ v2) ∧ (q ≠ v1 ∧ q ≠ v2) ∧ intersect v2 v1 p q = true
        · rw [if_pos hc, if_pos ⟨⟨hc.1.2, hc.1.1⟩, ⟨hc.2.1.2, hc.2.1.1⟩, hc.2.2⟩]
        · rw [if_neg hc, if_neg (fun h => hc ⟨⟨h.1.2, h.1.1⟩, ⟨h.2.1.2, h.2.1.1⟩, h.2.2⟩)]

theorem diagonalie_symm (points : List Point) (v1 v2 : Point) :
    diagonalie points v1 v2 = diagonalie points v2 v1 :=
  diagonalieLoop_symm points v1 v2 _ 0

/-- Claim C20. `diagonal` is symmetric in its two endpoints: for every point list and all points,
`diagonal v0 v v1 b0 b b1 = diagonal b0 b b1 v0 v v1` (fault included); in particular
`diagonalie v b = diagonalie b v`, and `intersect v b p q = intersect b v p q` for all `p`, `q`. -/
theorem diagonal_symmetric (points : List Point) (v0 v v1 b0 b b1 : Point) :
    diagonal points v0 v v1 b0 b b1 = diagonal points b0 b b1 v0 v v1 ∧
    diagonalie points v b = diagonalie points b v ∧
    ∀ p q : Point, intersect v b p q = intersect b v p q := by
  refine ⟨?_, diagonalie_symm points v b, fun p q => intersect_symm v b p q⟩
  unfold diagonal
  rw [diagonalie_symm points v b]
  cases inCone v0 v v1 b0 b b1 <;> cases inCone b0 b b1 v0 v v1 <;> rfl

/-! ## The closing edge -/

theorem not_blocks_square02 : ¬ ∃ j, Blocks square02 (pt (-1) 1) (pt 1 1) j := by
  rintro ⟨j, p, q, hp, hq, _, _, c3⟩
  have hj : j + 1 < 4 := by
    by_contra hc
    rw [List.getElem?_eq_none (by simp only [square02, List.length_cons, List.length_nil]; omega)]
      at hq
    cases hq
  rw [intersect_eq_true, intersectionProp_iff_signs, between_eq_true, between_eq_true,
    between_eq_true, between_eq_true] at c3
  have hj' : j < 3 := by omega
  interval_cases j <;> simp only [square02, List.getElem?_cons_zero, List.getElem?_cons_succ,
    Option.some.injEq] at hp hq <;> subst hp <;> subst hq <;>
    norm_num [area2, pt, InRange] at c3

/-- Claim C18. `diagonalie` never tests the closing edge `(points[n-1], points[0])`: on the
square `(0,0), (2,0), (2,2), (0,2)` the segment from `(-1,1)` to `(1,1)` properly intersects the
closing edge, meets no consecutive edge `(points[i], points[i+1])`, and `diagonalie` returns
true. -/
theorem diagonalie_skips_closing_edge :
    4 ≤ square02.length ∧
    intersectionProp (pt (-1) 1) (pt 1 1) (pointAt square02 (square02.length - 1))
      (pointAt square02 0) = true ∧
    (¬ ∃ j, Blocks square02 (pt (-1) 1) (pt 1 1) j) ∧
    diagonalie square02 (pt (-1) 1) (pt 1 1) = some true := by
  refine ⟨by decide, ?_, not_blocks_square02, ?_⟩
  · rw [intersectionProp_iff_signs]
    norm_num [area2, pt, pointAt, square02]
  · obtain ⟨r, hr, hiff⟩ := diagonalie_spec square02 (pt (-1) 1) (pt 1 1) (by simp [square02])
    rw [hr]
    cases r with
    | true => rfl
    | false => exact absurd (hiff.mp rfl) not_blocks_square02

/-! ## Too few points -/

/-- Claim C15, the failing input: on the empty point list, from the empty mesh state,
`createInitialPolygon` does not run to completion. The orientation call returns false, the
clockwise loop runs no iteration, and the closing step reads `vertex[0]` and
`vertex[vertex.size() - 1]` of the empty vector. With one or two points it completes. -/
theorem createInitialPolygon_nil_faults :
    createInitialPolygon emptyMesh [] = none ∧
    (createInitialPolygon emptyMesh [pt 0 0]).isSome = true ∧
    (createInitialPolygon emptyMesh [pt 0 0, pt 1 0]).isSome = true := by
  refine ⟨rfl, rfl, rfl⟩

/-! ## Building on a non-empty state -/

theorem pushVertices_eq_append (points : List Point) :
    ∀ (i : Int) (vertex : List Vertex_t),
      pushVertices i points vertex = vertex ++ pushVertices i points [] := by
  induction points with
  | nil => intro i vertex; simp [pushVertices]
  | cons v rest ih =>
    intro i vertex
    rw [pushVertices, pushVertices, ih (i + 1) (vertex ++ _), ih (i + 1) ([] ++ _)]
    simp

theorem polygonOrientation_isSome (vertex : List Vertex_t) (pointsSize : Nat)
    (h1 : 1 ≤ pointsSize) (h2 : pointsSize ≤ vertex.length) :
    ∃ b, polygonOrientation vertex pointsSize = some b := by
  unfold polygonOrientation
  by_cases h : vertex.length < 3
  · exact ⟨false, by rw [if_pos h]⟩
  · rw [if_neg h]
    obtain ⟨p, hp⟩ : ∃ p, vertex[pointsSize - 1]? = some p :=
      ⟨_, List.getElem?_eq_getElem (by omega)⟩
    obtain ⟨q, hq⟩ : ∃ q, vertex[0]? = some q := ⟨_, List.getElem?_eq_getElem (by omega)⟩
    unfold fanArea
    rw [sizeMinusOne_of_pos (by omega), orientationLoop_eq anchor vertex _ 0 0 (by omega),
      sizeMinusOne_of_pos (by omega)]
    simp only [hp, hq]
    exact ⟨_, rfl⟩

/-- On any state and at least one point `createInitialPolygon` runs to completion; it appends the
new vertices to `vertex` and one half-edge pair per vertex of the whole vector to `h`. -/
theorem createInitialPolygon_general (st : Mesh) (points : List Point)
    (hn : 1 ≤ points.length) :
    ∃ st', createInitialPolygon st points = some st' ∧
      (∃ t, st'.vertex = st.vertex ++ t) ∧
      st'.vertex.length = st.vertex.length + points.length ∧
      (∃ t, st'.h = st.h ++ t) ∧
      st'.h.length = st.h.length + 2 * (st.vertex.length + points.length) := by
  have hlen : (pushVertices 0 points st.vertex).length = st.vertex.length + points.length :=
    pushVertices_length points 0 st.vertex
  obtain ⟨c, hc⟩ := polygonOrientation_isSome (pushVertices 0 points st.vertex) points.length hn
    (by omega)
  have hb : buildEdges c { st with vertex := pushVertices 0 points st.vertex } =
      some (applyEdges { st with vertex := pushVertices 0 points st.vertex }
        (edgeArgs c (st.vertex.length + points.length))) := by
    rw [buildEdges_eq, addEdges_eq]
    · simp only [hlen]
    · simp only [hlen]
      exact edgeArgs_inBounds _ _ (by omega)
  refine ⟨{ applyEdges { st with vertex := pushVertices 0 points st.vertex }
      (edgeArgs c (st.vertex.length + points.length)) with creating_initial_pol := false },
    ?_, ?_, ?_, ?_, ?_⟩
  · unfold createInitialPolygon
    simp only [hc, hb]
  · refine ⟨pushVertices 0 points [], ?_⟩
    simp only [applyEdges_vertex]
    exact pushVertices_eq_append points 0 st.vertex
  · simp only [applyEdges_vertex]
    exact hlen
  · exact ⟨pairList st.heap.length
      ((edgeArgs c (st.vertex.length + points.length)).map EdgeArgs.od),
      by simp only [applyEdges_h]⟩
  · simp only [applyEdges_h, List.length_append, pairList_length, List.length_map]
    rw [edgeArgs_length _ _ (by omega)]

/-- Claim C17. `createInitialPolygon` never clears the mesh state, it only appends: with at least
one point, on a state holding `v` vertices and `e` half-edges, it runs to completion, leaves the
first `v` vertices and the first `e` half-edges unchanged and ends with exactly `v + n` vertices
and `e + 2 (v + n)` half-edges; so building twice in a row from the same points ends with `2n`
vertices and `6n` half-edges. -/
theorem createInitialPolygon_appends (points : List Point) (hn : 1 ≤ points.length) :
    (∀ st : Mesh, ∃ st', createInitialPolygon st points = some st' ∧
      (∃ t, st'.vertex = st.vertex ++ t) ∧
      st'.vertex.length = st.vertex.length + points.length ∧
      (∃ t, st'.h = st.h ++ t) ∧
      st'.h.length = st.h.length + 2 * (st.vertex.length + points.length)) ∧
    (∃ st1 st2, createInitialPolygon emptyMesh points = some st1 ∧
      createInitialPolygon st1 points = some st2 ∧
      st2.vertex.length = 2 * points.length ∧ st2.h.length = 6 * points.length) := by
  refine ⟨fun st => createInitialPolygon_general st points hn, ?_⟩
  obtain ⟨st1, h1, _, hv1, _, hh1⟩ := createInitialPolygon_general emptyMesh points hn
  obtain ⟨st2, h2, _, hv2, _, hh2⟩ := createInitialPolygon_general st1 points hn
  refine ⟨st1, st2, h1, h2, ?_, ?_⟩
  · rw [hv2, hv1]
    simp only [emptyMesh, List.length_nil]
    omega
  · rw [hh2, hh1, hv1]
    simp only [emptyMesh, List.length_nil]
    omega

theorem createInitialPolygon_appends_witness :
    1 ≤ square.length ∧
    (∀ st : Mesh, ∃ st', createInitialPolygon st square = some st' ∧
      (∃ t, st'.vertex = st.vertex ++ t) ∧
      st'.vertex.length = st.vertex.length + square.length ∧
      (∃ t, st'.h = st.h ++ t) ∧
      st'.h.length = st.h.length + 2 * (st.vertex.length + square.length)) ∧
    (∃ st1 st2, createInitialPolygon emptyMesh square = some st1 ∧
      createInitialPolygon st1 square = some st2 ∧
      st2.vertex.length = 2 * square.length ∧ st2.h.length = 6 * square.length) :=
  ⟨by decide, createInitialPolygon_appends square (by decide)⟩

/-! ## The ear diagnostic -/

theorem ear_isSome (points : List Point) (hne : points ≠ []) (v0 v v1 v00 v11 : Point) :
    ∃ b, ear points v0 v v1 v00 v11 = some b := by
  unfold ear diagonal
  split_ifs
  · exact ⟨false, rfl⟩
  · obtain ⟨r, hr, _⟩ := diagonalie_spec points v0 v1 hne
    exact ⟨r, hr⟩
  · exact ⟨false, rfl⟩

theorem getElem?_pointAt (points : List Point) (i : Nat) (hi : i < points.length) :
    points[i]? = some (pointAt points i) := by
  unfold pointAt
  rw [List.getD_eq_getElem?_getD, List.getElem?_eq_getElem hi]
  rfl

theorem mod_of_eq_add {a b n : Nat} (hb : b < n) (h : a = b ∨ a = b + n) : a % n = b := by
  rcases h with h | h
  · rw [h, Nat.mod_eq_of_lt hb]
  · rw [h, Nat.add_mod_right, Nat.mod_eq_of_lt hb]

/-- A call of `earVerify` whose five indices are the cyclic neighbours of `i` reads in bounds and
computes the classification of vertex `i`. -/
theorem earAt_eq_earOf (points : List Point) (i i0 i1 i00 i11 : Nat) (hi : i < points.length)
    (h0 : (i + points.length - 1) % points.length = i0)
    (h1 : (i + 1) % points.length = i1)
    (h00 : (i + points.length - 2) % points.length = i00)
    (h11 : (i + 2) % points.length = i11) :
    earAt points i0 i i1 i00 i11 = earOf points i := by
  have hpos : 0 < points.length := by omega
  subst h0 h1 h00 h11
  unfold earAt earOf
  rw [getElem?_pointAt points _ (Nat.mod_lt _ hpos), getElem?_pointAt points i hi,
    getElem?_pointAt points _ (Nat.mod_lt _ hpos), getElem?_pointAt points _ (Nat.mod_lt _ hpos),
    getElem?_pointAt points _ (Nat.mod_lt _ hpos)]

theorem earOf_isSome (points : List Point) (hne : points ≠ []) (i : Nat) :
    ∃ b, earOf points i = some b :=
  ear_isSome points hne _ _ _ _ _

theorem earVerifyLoop_spec (points : List Point) :
    ∀ k i : Nat, 2 ≤ i → i + k + 2 ≤ points.length →
      ∃ l, earVerifyLoop points k i = some l ∧ l.length = k ∧
        ∀ j, j < k → ∃ b, earOf points (i + j) = some b ∧ l[j]? = some (i + j, b) := by
  intro k
  induction k with
  | zero =>
    intro i _ _
    exact ⟨[], rfl, rfl, fun j hj => absurd hj (Nat.not_lt_zero j)⟩
  | succ k ih =>
    intro i h2 hle
    have hne : points ≠ [] := by
      intro h
      rw [h] at hle
      simp at hle
    obtain ⟨b, hb⟩ := earOf_isSome points hne i
    obtain ⟨l, hl, hlen, hget⟩ := ih (i + 1) (by omega) (by omega)
    have hcall : earAt points (i - 1) i (i + 1) (i - 2) (i + 2) = some b := by
      rw [earAt_eq_earOf points i _ _ _ _ (by omega)
        (mod_of_eq_add (by omega) (Or.inr (by omega)))
        (mod_of_eq_add (by omega) (Or.inl rfl))
        (mod_of_eq_add (by omega) (Or.inr (by omega)))
        (mod_of_eq_add (by omega) (Or.inl rfl)), hb]
    refine ⟨(i, b) :: l, ?_, by simp [hlen], ?_⟩
    · rw [earVerifyLoop, hcall]
      simp only [hl]
    · intro j hj
      cases j with
      | zero => exact ⟨b, hb, by simp⟩
      | succ j =>
        obtain ⟨b', hb', hj'⟩ := hget j (by omega)
        refine ⟨b', ?_, ?_⟩
        · have e : i + (j + 1) = i + 1 + j := by omega
          rw [e]; exact hb'
        · rw [List.getElem?_cons_succ, hj']
          have e : i + (j + 1) = i + 1 + j := by omega
          rw [e]

/-- With at least four points `earVerify` returns one entry per vertex, in order, the entry for
`i` being the classification of vertex `i`. -/
theorem earVerify_entries (points : List Point) (h4 : 4 ≤ points.length) :
    ∃ l, earVerify points = some l ∧ l.length = points.length ∧
      ∀ i, i < points.length → ∃ b, earOf points i = some b ∧ l[i]? = some (i, b) := by
  have hne : points ≠ [] := by
    intro h
    rw [h] at h4
    simp at h4
  obtain ⟨b0, hb0⟩ := earOf_isSome points hne 0
  obtain ⟨b1, hb1⟩ := earOf_isSome points hne 1
  obtain ⟨b2, hb2⟩ := earOf_isSome points hne (points.length - 2)
  obtain ⟨b3, hb3⟩ := earOf_isSome points hne (points.length - 1)
  obtain ⟨l, hl, hlen, hget⟩ := earVerifyLoop_spec points (points.length - 2 - 2) 2 (le_refl 2)
    (by omega)
  have c0 : earAt points (points.length - 1) 0 1 (points.length - 2) 2 = some b0 := by
    rw [earAt_eq_earOf points 0 _ _ _ _ (by omega)
      (mod_of_eq_add (by omega) (Or.inl (by omega)))
      (mod_of_eq_add (by omega) (Or.inl rfl))
      (mod_of_eq_add (by omega) (Or.inl (by omega)))
      (mod_of_eq_add (by omega) (Or.inl rfl)), hb0]
  have c1 : earAt points 0 1 2 (points.length - 1) 3 = some b1 := by
    rw [earAt_eq_earOf points 1 _ _ _ _ (by omega)
      (mod_of_eq_add (by omega) (Or.inr (by omega)))
      (mod_of_eq_add (by omega) (Or.inl rfl))
      (mod_of_eq_add (by omega) (Or.inl (by omega)))
      (mod_of_eq_add (by omega) (Or.inl rfl)), hb1]
  have c2 : earAt points (points.length - 3) (points.length - 2) (points.length - 1)
      (points.length - 4) 0 = some b2 := by
    rw [earAt_eq_earOf points (points.length - 2) _ _ _ _ (by omega)
      (mod_of_eq_add (by omega) (Or.inr (by omega)))
      (mod_of_eq_add (by omega) (Or.inl (by omega)))
      (mod_of_eq_add (by omega) (Or.inr (by omega)))
      (mod_of_eq_add (by omega) (Or.inr (by omega))), hb2]
  have c3 : earAt points (points.length - 2) (points.length - 1) 0 (points.length - 3) 1 =
      some b3 := by
    rw [earAt_eq_earOf points (points.length - 1) _ _ _ _ (by omega)
      (mod_of_eq_add (by omega) (Or.inr (by omega)))
      (mod_of_eq_add (by omega) (Or.inr (by omega)))
      (mod_of_eq_add (by omega) (Or.inr (by omega)))
      (mod_of_eq_add (by omega) (Or.inr (by omega))), hb3]
  refine ⟨(0, b0) :: (1, b1) :: l ++ [(points.length - 2, b2), (points.length - 1, b3)],
    ?_, ?_, ?_⟩
  · unfold earVerify
    rw [if_neg (by omega)]
    simp only [c0, c1, hl, c2, c3]
  · simp only [List.length_cons, List.length_append, List.length_nil, hlen]
    omega
  · intro i hi
    rcases Nat.lt_or_ge i 2 with h2 | h2
    · interval_cases i
      · exact ⟨b0, hb0, by simp⟩
      · exact ⟨b1, hb1, by simp⟩
    · obtain ⟨j, rfl⟩ : ∃ j, i = j + 2 := ⟨i - 2, by omega⟩
      rw [List.cons_append, List.cons_append, List.getElem?_cons_succ,
        List.getElem?_cons_succ]
      rcases Nat.lt_or_ge j (points.length - 2 - 2) with hj | hj
      · obtain ⟨b, hb, hlj⟩ := hget j hj
        refine ⟨b, ?_, ?_⟩
        · rw [Nat.add_comm j 2]; exact hb
        · rw [List.getElem?_append_left (by omega), hlj, Nat.add_comm j 2]
      · rw [List.getElem?_append_right (by omega), hlen]
        rcases Nat.eq_or_lt_of_le hj with he | hlt
        · have e1 : j - (points.length - 2 - 2) = 0 := by omega
          have e2 : j + 2 = points.length - 2 := by omega
          rw [e1, e2]
          exact ⟨b2, hb2, rfl⟩
        · have e1 : j - (points.length - 2 - 2) = 1 := by omega
          have e2 : j + 2 = points.length - 1 := by omega
          rw [e1, e2]
          exact ⟨b3, hb3, rfl⟩

/-- Claim C16. For a point list of length `n`, the sequence of classifications `earVerify`
produces is empty when `n < 4`; when `n ≥ 4` it has exactly `n` entries, labelled `0, 1, ..., n-1`
in that order, the entry for `i` being `ear` on the cyclic neighbours of `i`; every read is in
bounds (the diagnostic returns). -/
theorem earVerify_spec (points : List Point) :
    (points.length < 4 → earVerify points = some []) ∧
    (4 ≤ points.length → ∃ l, earVerify points = some l ∧ l.length = points.length ∧
      ∀ i, i < points.length → ∃ b, earOf points i = some b ∧ l[i]? = some (i, b)) := by
  constructor
  · intro h
    unfold earVerify
    rw [if_pos h]
  · exact earVerify_entries points

theorem earVerify_spec_witness :
    4 ≤ square.length ∧
    ∃ l, earVerify square = some l ∧ l.length = square.length ∧
      ∀ i, i < square.length → ∃ b, earOf square i = some b ∧ l[i]? = some (i, b) :=
  ⟨by decide, (earVerify_spec square).2 (by decide)⟩

/-! ## Ears of a rectangle -/

/-- A vertex `v` with neighbours `v0`, `v1` and the same point `o` on both far sides is an ear
when the five triples the tests read wind counterclockwise and `diagonalie` lets `v0 v1` pass. -/
theorem ear_of_areas (points : List Point) (v0 v v1 o : Point)
    (h1 : 0 < area2 v0 v v1) (h2 : 0 < area2 v0 v o) (h3 : 0 < area2 v0 v1 o)
    (h4 : 0 < area2 v1 v0 v) (h5 : 0 < area2 v1 o v)
    (hd : diagonalie points v0 v1 = some true) : ear points v0 v v1 o o = some true := by
  simp [ear, isConvex, diagonal, inCone, leftOn, left, h1, h2.le, h3, h4, h5.le, hd]

theorem diagonalie_rectangle_02 (x0 x1 y0 y1 : ℚ) :
    diagonalie (rectangle x0 x1 y0 y1) (pt x0 y0) (pt x1 y1) = some true ∧
    diagonalie (rectangle x0 x1 y0 y1) (pt x1 y1) (pt x0 y0) = some true := by
  constructor <;> simp [diagonalie, diagonalieLoop, sizeMinusOne, rectangle]

theorem diagonalie_rectangle_13 (x0 x1 y0 y1 : ℚ) :
    diagonalie (rectangle x0 x1 y0 y1) (pt x1 y0) (pt x0 y1) = some true ∧
    diagonalie (rectangle x0 x1 y0 y1) (pt x0 y1) (pt x1 y0) = some true := by
  constructor <;> simp [diagonalie, diagonalieLoop, sizeMinusOne, rectangle]

/-- Over exact arithmetic every vertex of a counterclockwise axis-aligned rectangle is convex
and an ear, and `earVerify` prints `ear` four times. -/
theorem rectangle_ears_exact (x0 x1 y0 y1 : ℚ) (hx : x0 < x1) (hy : y0 < y1) :
    (∀ i, i < 4 →
      isConvex (pointAt (rectangle x0 x1 y0 y1) ((i + 3) % 4)) (pointAt (rectangle x0 x1 y0 y1) i)
        (pointAt (rectangle x0 x1 y0 y1) ((i + 1) % 4)) = true ∧
      earOf (rectangle x0 x1 y0 y1) i = some true) ∧
    earVerify (rectangle x0 x1 y0 y1) = some [(0, true), (1, true), (2, true), (3, true)] := by
  have hp : 0 < (x1 - x0) * (y1 - y0) := mul_pos (sub_pos.2 hx) (sub_pos.2 hy)
  have hall : ∀ i, i < 4 →
      isConvex (pointAt (rectangle x0 x1 y0 y1) ((i + 3) % 4))
        (pointAt (rectangle x0 x1 y0 y1) i)
        (pointAt (rectangle x0 x1 y0 y1) ((i + 1) % 4)) = true ∧
      earOf (rectangle x0 x1 y0 y1) i = some true := by
    intro i hi
    interval_cases i
    · have hc : 0 < area2 (pt x0 y1) (pt x0 y0) (pt x1 y0) := by
        simp only [area2, pt]
        nlinarith
      refine ⟨?_, ?_⟩
      · show isConvex (pt x0 y1) (pt x0 y0) (pt x1 y0) = true
        simp only [isConvex, decide_eq_true_eq]
        exact hc
      · have e : earOf (rectangle x0 x1 y0 y1) 0 =
            ear (rectangle x0 x1 y0 y1) (pt x0 y1) (pt x0 y0) (pt x1 y0) (pt x1 y1) (pt x1 y1) := by
          simp [earOf, pointAt, rectangle]
        rw [e]
        refine ear_of_areas _ _ _ _ _ hc ?_ ?_ ?_ ?_ (diagonalie_rectangle_13 x0 x1 y0 y1).2
        all_goals
          simp only [area2, pt]
          nlinarith
    · have hc : 0 < area2 (pt x0 y0) (pt x1 y0) (pt x1 y1) := by
        simp only [area2, pt]
        nlinarith
      refine ⟨?_, ?_⟩
      · show isConvex (pt x0 y0) (pt x1 y0) (pt x1 y1) = true
        simp only [isConvex, decide_eq_true_eq]
        exact hc
      · have e : earOf (rectangle x0 x1 y0 y1) 1 =
            ear (rectangle x0 x1 y0 y1) (pt x0 y0) (pt x1 y0) (pt x1 y1) (pt x0 y1) (pt x0 y1) := by
          simp [earOf, pointAt, rectangle]
        rw [e]
        refine ear_of_areas _ _ _ _ _ hc ?_ ?_ ?_ ?_ (diagonalie_rectangle_02 x0 x1 y0 y1).1
        all_goals
          simp only [area2, pt]
          nlinarith
    · have hc : 0 < area2 (pt x1 y0) (pt x1 y1) (pt x0 y1) := by
        simp only [area2, pt]
        nlinarith
      refine ⟨?_, ?_⟩
      · show isConvex (pt x1 y0) (pt x1 y1) (pt x0 y1) = true
        simp only [isConvex, decide_eq_true_eq]
        exact hc
      · have e : earOf (rectangle x0 x1 y0 y1) 2 =
            ear (rectangle x0 x1 y0 y1) (pt x1 y0) (pt x1 y1) (pt x0 y1) (pt x0 y0) (pt x0 y0) := by
          simp [earOf, pointAt, rectangle]
        rw [e]
        refine ear_of_areas _ _ _ _ _ hc ?_ ?_ ?_ ?_ (diagonalie_rectangle_13 x0 x1 y0 y1).1
        all_goals
          simp only [area2, pt]
          nlinarith
    · have hc : 0 < area2 (pt x1 y1) (pt x0 y1) (pt x0 y0) := by
        simp only [area2, pt]
        nlinarith
      refine ⟨?_, ?_⟩
      · show isConvex (pt x1 y1) (pt x0 y1) (pt x0 y0) = true
        simp only [isConvex, decide_eq_true_eq]
        exact hc
      · have e : earOf (rectangle x0 x1 y0 y1) 3 =
            ear (rectangle x0 x1 y0 y1) (pt x1 y1) (pt x0 y1) (pt x0 y0) (pt x1 y0) (pt x1 y0) := by
          simp [earOf, pointAt, rectangle]
        rw [e]
        refine ear_of_areas _ _ _ _ _ hc ?_ ?_ ?_ ?_ (diagonalie_rectangle_02 x0 x1 y0 y1).2
        all_goals
          simp only [area2, pt]
          nlinarith
  refine ⟨hall, ?_⟩
  have h4 : (rectangle x0 x1 y0 y1).length = 4 := rfl
  obtain ⟨l, hl, hlen, hget⟩ := earVerify_entries (rectangle x0 x1 y0 y1) (le_of_eq h4.symm)
  rw [h4] at hlen hget
  rw [hl]
  congr 1
  apply List.ext_getElem?
  intro i
  rcases Nat.lt_or_ge i 4 with hi | hi
  · obtain ⟨b, hb, hli⟩ := hget i hi
    rw [(hall i hi).2] at hb
    cases hb
    rw [hli]
    interval_cases i <;> rfl
  · rw [List.getElem?_eq_none (by omega), List.getElem?_eq_none (by simp; omega)]

/-! ## Twin references in every reachable state -/

theorem addEdge_h_heap {st s : Mesh} {k1 k2 o d : Int} (h : addEdge st k1 k2 o d = some s) :
    ∃ vo vd, s.h = st.h ++ [⟨vo, .heap (st.heap.length + 1)⟩, ⟨vd, .heap st.heap.length⟩] ∧
      s.heap = st.heap ++ [⟨vo, .heap (st.heap.length + 1)⟩, ⟨vd, .heap st.heap.length⟩] := by
  unfold addEdge at h
  cases ho : vertexIndex st.vertex o with
  | none => rw [ho] at h; cases h
  | some vo =>
    cases hd : vertexIndex st.vertex d with
    | none => rw [ho, hd] at h; cases h
    | some vd =>
      rw [ho, hd] at h
      simp only [Option.some.injEq] at h
      subst h
      exact ⟨vo, vd, rfl, rfl⟩

theorem deref_append {st s : Mesh} {t1 t2 : List HalfEdge_t} (hh : s.h = st.h ++ t1)
    (hp : s.heap = st.heap ++ t2) {r : HalfEdgeRef} {x : HalfEdge_t}
    (h : deref st r = some x) : deref s r = some x := by
  cases r with
  | heap k =>
    simp only [deref] at h ⊢
    have hk : k < st.heap.length := by
      by_contra hc
      rw [List.getElem?_eq_none (by omega)] at h
      cases h
    rw [hp, List.getElem?_append_left hk, h]
  | slot k =>
    simp only [deref] at h ⊢
    have hk : k < st.h.length := by
      by_contra hc
      rw [List.getElem?_eq_none (by omega)] at h
      cases h
    rw [hh, List.getElem?_append_left hk, h]

theorem twinOf_append {st s : Mesh} {t1 t2 : List HalfEdge_t} (hh : s.h = st.h ++ t1)
    (hp : s.heap = st.heap ++ t2) {r t : HalfEdgeRef} (h : twinOf st r = some t) :
    twinOf s r = some t := by
  unfold twinOf at h ⊢
  cases hd : deref st r with
  | none => rw [hd] at h; cases h
  | some x =>
    rw [hd] at h
    rw [deref_append hh hp hd]
    exact h

theorem twin_twin_append {st s : Mesh} {t1 t2 : List HalfEdge_t} (hh : s.h = st.h ++ t1)
    (hp : s.heap = st.heap ++ t2) {r t : HalfEdgeRef}
    (h : (twinOf st r).bind (twinOf st) = some t) : (twinOf s r).bind (twinOf s) = some t := by
  cases h1 : twinOf st r with
  | none => rw [h1] at h; cases h
  | some m =>
    rw [h1, Option.some_bind] at h
    rw [twinOf_append hh hp h1, Option.some_bind, twinOf_append hh hp h]

/-- One edge block keeps every element of `h` a copy of the allocated object of its rank. -/
theorem addEdge_twinInv {st s : Mesh} {k1 k2 o d : Int} (h : addEdge st k1 k2 o d = some s)
    (hinv : TwinInv st) : TwinInv s := by
  obtain ⟨vo, vd, hh, hp⟩ := addEdge_h_heap h
  obtain ⟨hlen, hall⟩ := hinv
  rw [hlen] at hh hp
  have hslen : s.h.length = st.h.length + 2 := by rw [hh]; simp
  have hplen : s.heap.length = st.h.length + 2 := by rw [hp]; simp [hlen]
  refine ⟨by rw [hslen, hplen], ?_⟩
  intro i hi
  rcases Nat.lt_or_ge i st.h.length with hlt | hge
  · obtain ⟨c1, c2, c3, c4⟩ := hall i hlt
    refine ⟨twin_twin_append hh hp c1, ?_, ?_, twin_twin_append hh hp c4⟩
    · simp only [deref]
      rw [hh, hp, List.getElem?_append_left hlt, List.getElem?_append_left (by omega)]
      exact c2
    · simp only [deref]
      rw [hh, List.getElem?_append_left hlt]
      exact c3
  · have e0s : s.h[st.h.length]? = some ⟨vo, .heap (st.h.length + 1)⟩ := by
      rw [hh, List.getElem?_append_right (le_refl _)]; simp
    have e1s : s.h[st.h.length + 1]? = some ⟨vd, .heap st.h.length⟩ := by
      rw [hh, List.getElem?_append_right (by omega)]; simp
    have e0p : s.heap[st.h.length]? = some ⟨vo, .heap (st.h.length + 1)⟩ := by
      rw [hp, List.getElem?_append_right (by omega)]; simp [hlen]
    have e1p : s.heap[st.h.length + 1]? = some ⟨vd, .heap st.h.length⟩ := by
      rw [hp, List.getElem?_append_right (by omega)]; simp [hlen]
    rcases Nat.eq_or_lt_of_le hge with he | hgt
    · subst he
      simp only [TwinOfCopy, twinOf, deref, e0s, e0p, e1p, Option.map_some', Option.some_bind,
        Option.isSome_some, and_self]
    · have he : i = st.h.length + 1 := by omega
      subst he
      simp only [TwinOfCopy, twinOf, deref, e1s, e0p, e1p, Option.map_some', Option.some_bind,
        Option.isSome_some, and_self]

theorem addEdges_twinInv (es : List EdgeArgs) :
    ∀ st s : Mesh, addEdges st es = some s → TwinInv st → TwinInv s := by
  induction es with
  | nil =>
    intro st s h hinv
    simp only [addEdges, Option.some.injEq] at h
    subst h
    exact hinv
  | cons e es ih =>
    intro st s h hinv
    rw [addEdges] at h
    cases h1 : addEdge st e.k1 e.k2 e.o e.d with
    | none => rw [h1] at h; cases h
    | some st1 =>
      rw [h1] at h
      exact ih st1 s h (addEdge_twinInv h1 hinv)

theorem buildEdges_twinInv (c : Bool) (st s : Mesh) (h : buildEdges c st = some s)
    (hinv : TwinInv st) : TwinInv s := by
  rw [buildEdges_eq] at h
  exact addEdges_twinInv _ st s h hinv

theorem twinInv_emptyMesh : TwinInv emptyMesh :=
  ⟨rfl, fun i hi => absurd hi (Nat.not_lt_zero i)⟩

theorem twinInv_of_run (orient : List Vertex_t → Nat → Option Bool) (st st' : Mesh)
    (points : List Point) (hinv : TwinInv st)
    (h : (match orient (pushVertices 0 points st.vertex) points.length with
      | none => none
      | some counterclockwise =>
        match buildEdges counterclockwise { st with vertex := pushVertices 0 points st.vertex } with
        | none => none
        | some st2 => some { st2 with creating_initial_pol := false }) = some st') :
    TwinInv st' := by
  cases ho : orient (pushVertices 0 points st.vertex) points.length with
  | none => rw [ho] at h; cases h
  | some c =>
    rw [ho] at h
    simp only [] at h
    cases hb : buildEdges c { st with vertex := pushVertices 0 points st.vertex } with
    | none => rw [hb] at h; cases h
    | some st2 =>
      rw [hb] at h
      simp only [Option.some.injEq] at h
      subst h
      have h1 : TwinInv { st with vertex := pushVertices 0 points st.vertex } := hinv
      exact buildEdges_twinInv c _ st2 hb h1

/-- Claim C6, amended. In every state reached from the empty state by completed calls of
`createInitialPolygon` (any number of points, either orientation branch, exact or `float`
orientation test), for every element `h[i]` of the half-edge collection: following its twin
reference and then that half-edge's twin reference leads to the `i`-th object allocated with
`new`, which holds the same origin and twin reference as `h[i]` (the element is a copy of it)
but is not the element itself; on the allocated objects themselves twin of twin is the
identity. -/
theorem createInitialPolygon_twin_twin :
    TwinInv emptyMesh ∧
    ∀ (st : Mesh) (points : List Point) (st' : Mesh), TwinInv st →
      (createInitialPolygon st points = some st' ∨
        createInitialPolygonF st points = some st') →
      TwinInv st' := by
  refine ⟨twinInv_emptyMesh, ?_⟩
  intro st points st' hinv h
  rcases h with h | h
  · exact twinInv_of_run polygonOrientation st st' points hinv h
  · exact twinInv_of_run polygonOrientationF st st' points hinv h

theorem createInitialPolygon_twin_twin_witness :
    TwinInv emptyMesh ∧ createInitialPolygon emptyMesh square = some (builtMesh square) ∧
    TwinInv (builtMesh square) :=
  ⟨createInitialPolygon_twin_twin.1, createInitialPolygon_eq square (by decide),
    createInitialPolygon_twin_twin.2 emptyMesh square (builtMesh square)
      createInitialPolygon_twin_twin.1 (Or.inl (createInitialPolygon_eq square (by decide)))⟩

/-! ## The program in `float` -/

/-- Counterexample to claim C2 as stated, on the `float` code. For the three clicks `clicksA`
`polygonOrientation` returns true on the vertex list and on its reversal. For the three clicks
`clicksB`, whose signed area is non-zero (exactly and as accumulated in `float`),
`polygonOrientation` returns false on the vertex list and on its reversal. -/
theorem polygonOrientationF_reverse_counterexample :
    (polygonOrientationF (initialVertices clicksA) 3 = some true ∧
      polygonOrientationF (initialVertices clicksA).reverse 3 = some true) ∧
    (shoelace (initialVertices clicksB) ≠ 0 ∧
      fanAreaF (initialVertices clicksB) 3 ≠ some 0 ∧
      polygonOrientationF (initialVertices clicksB) 3 = some false ∧
      polygonOrientationF (initialVertices clicksB).reverse 3 = some false) := by
  have h : decide (shoelace (initialVertices clicksB) ≠ 0) = true := by decide!
  exact ⟨⟨by decide!, by decide!⟩, of_decide_eq_true h, by decide!, by decide!, by decide!⟩

/-- Counterexample to claim C5 as stated, on the `float` code. The three clicks `clicksB` are
listed counterclockwise with non-zero signed area, yet the `float` total of `polygonOrientation`
is not positive, the clockwise branch runs, and the forward half-edges leave the vertices in the
order 2, 1, 0: the walk is clockwise. -/
theorem createInitialPolygonF_walk_counterexample :
    0 < shoelace (initialVertices clicksB) ∧
    polygonOrientationF (initialVertices clicksB) 3 = some false ∧
    ∃ st, createInitialPolygonF emptyMesh clicksB = some st ∧
      forwardOrigins st 3 = [2, 1, 0] ∧ shoelace (walkVertices st 3) < 0 := by
  have h1 : decide (0 < shoelace (initialVertices clicksB)) = true := by decide!
  have h2 : (createInitialPolygonF emptyMesh clicksB).map
      (fun st => (forwardOrigins st 3, decide (shoelace (walkVertices st 3) < 0))) =
      some ([2, 1, 0], true) := by decide!
  refine ⟨of_decide_eq_true h1, by decide!, ?_⟩
  cases h : createInitialPolygonF emptyMesh clicksB with
  | none => rw [h] at h2; cases h2
  | some st =>
    rw [h] at h2
    simp only [Option.map_some', Option.some.injEq, Prod.mk.injEq, decide_eq_true_eq] at h2
    exact ⟨st, rfl, h2.1, h2.2⟩

/-- Counterexample to claim C11 as stated, on the `float` code. On the rectangle with corners
`(1/2, 1/2)` and `(1/2 + 2^-24, 1/2 + 2^-24)`, both binary32 numbers, the `float` value of `area2`
is zero at every corner, so `isConvex` is false at every vertex (and `ear`, which tests
`isConvex` first, is false too). -/
theorem isConvexF_rectangle_counterexample :
    (1 / 2 : ℚ) < halfUp ∧ round32 halfUp = halfUp ∧
    ∀ i, i < 4 →
      isConvexF (pointAt (rectangle (1 / 2) halfUp (1 / 2) halfUp) ((i + 3) % 4))
        (pointAt (rectangle (1 / 2) halfUp (1 / 2) halfUp) i)
        (pointAt (rectangle (1 / 2) halfUp (1 / 2) halfUp) ((i + 1) % 4)) = false := by
  refine ⟨by decide!, by decide!, by decide!⟩

/-- Counterexample to claim C19 as stated, on the `float` code. For `a = (2^-25, 1)` and
`c = (1, 1)` the `float` value of `area2(a, a, c)` is `-2^-25`, so `between(a, a, c)` is false
although `c` has the second coordinate of `a`; likewise for the clicks at pixels `(500, 200)` and
`(700, 200)` of the initial window. -/
theorem betweenF_degenerate_counterexample :
    (area2F (pt (1 / 2 ^ 25) 1) (pt (1 / 2 ^ 25) 1) (pt 1 1) = -(1 / 2 ^ 25) ∧
      betweenF (pt (1 / 2 ^ 25) 1) (pt (1 / 2 ^ 25) 1) (pt 1 1) = false ∧
      (pt 1 1).y = (pt (1 / 2 ^ 25) 1).y) ∧
    (betweenF (createPoint 800 600 500 200) (createPoint 800 600 500 200)
        (createPoint 800 600 700 200) = false ∧
      (createPoint 800 600 700 200).y = (createPoint 800 600 500 200).y) := by
  refine ⟨⟨by decide!, by decide!, rfl⟩, by decide!, rfl⟩

/-! ## Claims amended for `float` -/

theorem orientationLoopF_isSome (vertex : List Vertex_t) :
    ∀ (k i : Nat) (tot : ℚ), i + k < vertex.length →
      ∃ t, orientationLoopF vertex k i tot = some t := by
  intro k
  induction k with
  | zero => intro i tot _; exact ⟨tot, rfl⟩
  | succ k ih =>
    intro i tot hlt
    obtain ⟨p, e1⟩ : ∃ p, vertex[i]? = some p := ⟨_, List.getElem?_eq_getElem (by omega)⟩
    obtain ⟨q, e2⟩ : ∃ q, vertex[i + 1]? = some q := ⟨_, List.getElem?_eq_getElem (by omega)⟩
    rw [orientationLoopF, e1, e2]
    exact ih (i + 1) _ (by omega)

theorem polygonOrientationF_isSome (vertex : List Vertex_t) (pointsSize : Nat)
    (h1 : 1 ≤ pointsSize) (h2 : pointsSize ≤ vertex.length) :
    ∃ b, polygonOrientationF vertex pointsSize = some b := by
  unfold polygonOrientationF
  by_cases h : vertex.length < 3
  · exact ⟨false, by rw [if_pos h]⟩
  · rw [if_neg h]
    obtain ⟨p, hp⟩ : ∃ p, vertex[pointsSize - 1]? = some p :=
      ⟨_, List.getElem?_eq_getElem (by omega)⟩
    obtain ⟨q, hq⟩ : ∃ q, vertex[0]? = some q := ⟨_, List.getElem?_eq_getElem (by omega)⟩
    obtain ⟨t, ht⟩ := orientationLoopF_isSome vertex (vertex.length - 1) 0 0 (by omega)
    unfold fanAreaF
    rw [sizeMinusOne_of_pos (by omega), ht, sizeMinusOne_of_pos (by omega)]
    simp only [hp, hq]
    exact ⟨_, rfl⟩

/-- From the empty state and at least one point the `float` build runs to completion, on one of
the two branches. -/
theorem createInitialPolygonF_eq (points : List Point) (hn : 1 ≤ points.length) :
    ∃ c, createInitialPolygonF emptyMesh points =
      some { applyEdges { emptyMesh with vertex := initialVertices points }
        (edgeArgs c points.length) with creating_initial_pol := false } := by
  obtain ⟨c, hc⟩ := polygonOrientationF_isSome (initialVertices points) points.length hn
    (by rw [initialVertices_length])
  refine ⟨c, ?_⟩
  unfold createInitialPolygonF
  simp only []
  change (match polygonOrientationF (initialVertices points) points.length with
    | none => none
    | some counterclockwise =>
      match buildEdges counterclockwise { emptyMesh with vertex := initialVertices points } with
      | none => none
      | some st2 => some { st2 with creating_initial_pol := false }) = _
  rw [hc]
  simp only []
  rw [buildEdges_initial c points hn]

/-- Whichever branch ran, the forward half-edges form one closed chain through every vertex. -/
theorem chain_perm_of_h (st : Mesh) (c : Bool) (n : Nat) (hn : 1 ≤ n)
    (hh : st.h = pairList 0 ((edgeArgs c n).map EdgeArgs.od)) (hv : st.vertex.length = n) :
    (∀ k, k < n → ∃ a b,
      origOf st (.slot (2 * k)) = some a ∧
      origOf st (.slot (2 * k + 1)) = some b ∧
      origOf st (.slot (2 * ((k + 1) % n))) = some b) ∧
    (forwardOrigins st n).Perm (List.range st.vertex.length) := by
  have hget : ∀ k, k < n →
      st.h[2 * k]? = some ⟨(edgeEnds c n k).1, .heap (2 * k + 1)⟩ ∧
      st.h[2 * k + 1]? = some ⟨(edgeEnds c n k).2, .heap (2 * k)⟩ := by
    intro k hk
    have h := pairList_getElem? _ 0 k (edgeEnds c n k).1 (edgeEnds c n k).2
      (edgeArgs_od c n k hk)
    rw [hh]
    simpa using h
  constructor
  · intro k hk
    have hk' : (k + 1) % n < n := Nat.mod_lt _ (by omega)
    refine ⟨(edgeEnds c n k).1, (edgeEnds c n k).2, ?_, ?_, ?_⟩
    · simp only [origOf, deref, (hget k hk).1, Option.map_some']
    · simp only [origOf, deref, (hget k hk).2, Option.map_some']
    · simp only [origOf, deref, (hget _ hk').1, Option.map_some']
      rw [edgeEnds_chain _ _ _ hn hk]
  · have h : forwardOrigins st n = (List.range n).map (fun k => (edgeEnds c n k).1) := by
      unfold forwardOrigins
      rw [← List.filterMap_eq_map]
      apply List.filterMap_congr
      intro k hk
      have hk' : k < n := by simpa using hk
      simp [origOf, deref, (hget k hk').1]
    rw [h, hv]
    cases c with
    | true => simp [edgeEnds]
    | false =>
      simp only [edgeEnds, Bool.false_eq_true, if_false]
      rw [range_map_sub]
      exact List.reverse_perm _

/-- Claim C5, amended. From the empty mesh state and a point list of length `n ≥ 3`, with
`createEdge` setting the origin of `he` to its first and of `twin` to its second argument: the
forward half-edges `h[2k]` form one closed chain in creation order (the origin of `h[2k+1]` is the
origin of `h[2((k+1) mod n)]`) and their origins visit every vertex position exactly once, on the
`float` code as well; and, read over exact arithmetic, the shoelace sum of the vertices at their
origins is non-negative, and strictly positive when the input polygon's signed area is
non-zero. -/
theorem createInitialPolygon_walk (points : List Point) (hn : 3 ≤ points.length) :
    (∃ st, createInitialPolygon emptyMesh points = some st ∧
      (∀ k, k < points.length → ∃ a b,
        origOf st (.slot (2 * k)) = some a ∧
        origOf st (.slot (2 * k + 1)) = some b ∧
        origOf st (.slot (2 * ((k + 1) % points.length))) = some b) ∧
      (forwardOrigins st points.length).Perm (List.range st.vertex.length) ∧
      0 ≤ shoelace (walkVertices st points.length) ∧
      (shoelace (initialVertices points) ≠ 0 →
        0 < shoelace (walkVertices st points.length))) ∧
    (∃ st, createInitialPolygonF emptyMesh points = some st ∧
      (∀ k, k < points.length → ∃ a b,
        origOf st (.slot (2 * k)) = some a ∧
        origOf st (.slot (2 * k + 1)) = some b ∧
        origOf st (.slot (2 * ((k + 1) % points.length))) = some b) ∧
      (forwardOrigins st points.length).Perm (List.range st.vertex.length)) := by
  refine ⟨createInitialPolygon_walk_exact points hn, ?_⟩
  obtain ⟨c, hc⟩ := createInitialPolygonF_eq points (by omega)
  refine ⟨_, hc, ?_⟩
  exact chain_perm_of_h _ c points.length (by omega)
    (by simp [applyEdges_h, emptyMesh])
    (by simp [applyEdges_vertex, initialVertices_length])

theorem createInitialPolygon_walk_witness :
    3 ≤ square.reverse.length ∧
    (∃ st, createInitialPolygon emptyMesh square.reverse = some st ∧
      (∀ k, k < square.reverse.length → ∃ a b,
        origOf st (.slot (2 * k)) = some a ∧
        origOf st (.slot (2 * k + 1)) = some b ∧
        origOf st (.slot (2 * ((k + 1) % square.reverse.length))) = some b) ∧
      (forwardOrigins st square.reverse.length).Perm (List.range st.vertex.length) ∧
      0 ≤ shoelace (walkVertices st square.reverse.length) ∧
      (shoelace (initialVertices square.reverse) ≠ 0 →
        0 < shoelace (walkVertices st square.reverse.length))) ∧
    (∃ st, createInitialPolygonF emptyMesh square.reverse = some st ∧
      (∀ k, k < square.reverse.length → ∃ a b,
        origOf st (.slot (2 * k)) = some a ∧
        origOf st (.slot (2 * k + 1)) = some b ∧
        origOf st (.slot (2 * ((k + 1) % square.reverse.length))) = some b) ∧
      (forwardOrigins st square.reverse.length).Perm (List.range st.vertex.length)) :=
  ⟨by decide, createInitialPolygon_walk square.reverse (by decide)⟩

/-- The code of `between` in `float` as a proposition. -/
theorem betweenF_eq_true (a b c : Point) :
    betweenF a b c = true ↔
      area2F a b c = 0 ∧ (if a.x ≠ b.x then InRange a.x b.x c.x else InRange a.y b.y c.y) := by
  unfold betweenF collinearF InRange
  by_cases harea : area2F a b c = 0 <;> by_cases hx : a.x = b.x <;> simp [harea, hx]

/-- Claim C19, amended. For a degenerate segment: read over exact arithmetic, `between a a c`
is true exactly when `c` has the same second coordinate as `a`, whatever its first coordinate;
on the `float` code `between a a c` is true exactly when in addition the `float` value of
`area2(a, a, c)` is zero, so it still implies that `c` has the second coordinate of `a`;
`between (0,0) (0,0) (5,0)` is true on both readings. -/
theorem between_degenerate (a c : Point) :
    (between a a c = true ↔ c.y = a.y) ∧
    (betweenF a a c = true ↔ area2F a a c = 0 ∧ c.y = a.y) ∧
    between (pt 0 0) (pt 0 0) (pt 5 0) = true ∧
    betweenF (pt 0 0) (pt 0 0) (pt 5 0) = true := by
  have key : ∀ a c : Point, between a a c = true ↔ c.y = a.y := by
    intro a c
    rw [between_eq_true]
    have h0 : area2 a a c = 0 := by simp only [area2]; ring
    simp only [h0, ne_eq, not_true_eq_false, if_false, true_and, InRange]
    constructor
    · rintro (⟨h1, h2⟩ | ⟨h1, h2⟩) <;> linarith
    · intro h
      left
      constructor <;> linarith
  refine ⟨key a c, ?_, (key _ _).mpr rfl, by decide!⟩
  rw [betweenF_eq_true]
  simp only [ne_eq, not_true_eq_false, if_false, InRange]
  constructor
  · rintro ⟨h0, h⟩
    refine ⟨h0, ?_⟩
    rcases h with ⟨h1, h2⟩ | ⟨h1, h2⟩ <;> linarith
  · rintro ⟨h0, h⟩
    exact ⟨h0, Or.inl ⟨by linarith, by linarith⟩⟩

/-- Claim C2, amended. Read over exact arithmetic, for a vertex list of length at least 3: if
`polygonOrientation` returns true, it returns false on the reversed list; and when the total
signed area is non-zero, exactly one of the list and its reversal is classified counterclockwise.
On the `float` code the witness still holds: the square `(-1,-1), (1,-1), (1,1), (-1,1)` is
classified true and its reversal false. -/
theorem polygonOrientation_reverse (vertex : List Vertex_t) (hn : 3 ≤ vertex.length) :
    ((polygonOrientation vertex vertex.length = some true →
        polygonOrientation vertex.reverse vertex.reverse.length = some false) ∧
      (shoelace vertex ≠ 0 →
        (polygonOrientation vertex vertex.length = some true ∧
            polygonOrientation vertex.reverse vertex.reverse.length = some false) ∨
          (polygonOrientation vertex vertex.length = some false ∧
            polygonOrientation vertex.reverse vertex.reverse.length = some true))) ∧
    (polygonOrientationF (initialVertices square) 4 = some true ∧
      polygonOrientationF (initialVertices square).reverse 4 = some false) :=
  ⟨polygonOrientation_reverse_exact vertex hn, by decide!, by decide!⟩

theorem polygonOrientation_reverse_witness :
    3 ≤ (initialVertices square).length ∧
    ((polygonOrientation (initialVertices square) (initialVertices square).length = some true →
        polygonOrientation (initialVertices square).reverse
          (initialVertices square).reverse.length = some false) ∧
      (shoelace (initialVertices square) ≠ 0 →
        (polygonOrientation (initialVertices square) (initialVertices square).length =
              some true ∧
            polygonOrientation (initialVertices square).reverse
              (initialVertices square).reverse.length = some false) ∨
          (polygonOrientation (initialVertices square) (initialVertices square).length =
              some false ∧
            polygonOrientation (initialVertices square).reverse
              (initialVertices square).reverse.length = some true))) ∧
    (polygonOrientationF (initialVertices square) 4 = some true ∧
      polygonOrientationF (initialVertices square).reverse 4 = some false) :=
  ⟨by decide, polygonOrientation_reverse (initialVertices square) (by decide)⟩

/-- Claim C11, amended. Read over exact arithmetic, with the point list a counterclockwise
axis-aligned rectangle `(x0,y0), (x1,y0), (x1,y1), (x0,y1)`, `x0 < x1` and `y0 < y1`, every
vertex `i` is convex and is an ear on its cyclic neighbours, and `earVerify` prints `ear` for the
four vertices. On the `float` code the witness still holds: at every vertex of the square
`(-1,-1), (1,-1), (1,1), (-1,1)` both `isConvex` and `ear` are true. -/
theorem rectangle_ears (x0 x1 y0 y1 : ℚ) (hx : x0 < x1) (hy : y0 < y1) :
    ((∀ i, i < 4 →
      isConvex (pointAt (rectangle x0 x1 y0 y1) ((i + 3) % 4)) (pointAt (rectangle x0 x1 y0 y1) i)
        (pointAt (rectangle x0 x1 y0 y1) ((i + 1) % 4)) = true ∧
      earOf (rectangle x0 x1 y0 y1) i = some true) ∧
    earVerify (rectangle x0 x1 y0 y1) = some [(0, true), (1, true), (2, true), (3, true)]) ∧
    (∀ i, i < 4 →
      isConvexF (pointAt square ((i + 3) % 4)) (pointAt square i)
        (pointAt square ((i + 1) % 4)) = true ∧
      earOfF square i = some true) :=
  ⟨rectangle_ears_exact x0 x1 y0 y1 hx hy, by decide!⟩

theorem rectangle_ears_witness :
    ((-1 : ℚ) < 1 ∧ (-1 : ℚ) < 1) ∧
    ((∀ i, i < 4 →
      isConvex (pointAt (rectangle (-1) 1 (-1) 1) ((i + 3) % 4))
        (pointAt (rectangle (-1) 1 (-1) 1) i)
        (pointAt (rectangle (-1) 1 (-1) 1) ((i + 1) % 4)) = true ∧
      earOf (rectangle (-1) 1 (-1) 1) i = some true) ∧
    earVerify (rectangle (-1) 1 (-1) 1) = some [(0, true), (1, true), (2, true), (3, true)]) ∧
    (∀ i, i < 4 →
      isConvexF (pointAt square ((i + 3) % 4)) (pointAt square i)
        (pointAt square ((i + 1) % 4)) = true ∧
      earOfF square i = some true) :=
  ⟨⟨by norm_num, by norm_num⟩, rectangle_ears (-1) 1 (-1) 1 (by norm_num) (by norm_num)⟩

end GeometriaComputacional
